import Mathlib

/-!
Verification of the structural-alignment core of the repository:
pending-work resolution, work enqueueing, pair-alignment dispatch,
result merging, and the idempotent store
(`operation/structural_alignment/structural_alignment.py`).

The embedding models Python dicts as association lists that preserve
insertion order (as Python dicts do), `frozenset` pair keys as `Finset Nat`,
database tables as lists of row records, and the SQLAlchemy session as an
explicitly threaded state.  Metric values (floats in the source) are opaque
payloads here, modelled as `Int`; no claim depends on their arithmetic.
`dict.get(k)` is modelled as `Option`; a dict field that may be absent or
hold `None` is modelled as `Option (Option Int)`.
-/

namespace StructuralAlignment

/-- Association-list lookup, modelling Python dict access `d[k]`
(first binding wins; keys are unique in all the dicts built below). -/
def lookupA {K V : Type} [DecidableEq K] (k : K) : List (K × V) → Option V
  | [] => none
  | (k', v) :: t => if k' = k then some v else lookupA k t

/-- Python dict assignment `d[k] = v`: replace the value at an existing key
in place, or append the new key at the end (insertion order preserved). -/
def upd {K V : Type} [DecidableEq K] (k : K) (v : V) : List (K × V) → List (K × V)
  | [] => [(k, v)]
  | (k', v') :: t => if k' = k then (k, v) :: t else (k', v') :: upd k v t

/-- The `defaultdict` accumulation pattern used throughout the source:
for each element, read the current value at its key (default `d`),
apply `step`, and write it back. -/
def foldUpd {K V A : Type} [DecidableEq K] (key : A → K) (d : V) (step : V → A → V)
    (xs : List A) (l : List (K × V)) : List (K × V) :=
  xs.foldl (fun acc a => upd (key a) (step ((lookupA (key a) acc).getD d) a) acc) l

/-- `itertools.combinations(l, 2)`: all unordered pairs in list order,
no self-pairs, no repeats. -/
def pairsL {α : Type} : List α → List (α × α)
  | [] => []
  | x :: t => t.map (fun y => (x, y)) ++ pairsL t

/-! ## Pair Catalog rows (the persisted tables the core reads and writes) -/

/-- One row of the representative-entry query in
`_get_clusters_with_pending_alignments` (entry id, subcluster id, cluster id). -/
structure RepRow where
  entry_id : Nat
  subcluster_id : Nat
  cluster_id : Nat
deriving DecidableEq, Repr

/-- One `AlignmentGroupEntry` row: membership edge between an
`AlignmentGroup` and a `SubclusterEntry`. -/
structure GroupEntryRow where
  alignment_group_id : Nat
  subcluster_entry_id : Nat
deriving DecidableEq, Repr

/-- One `AlignmentResult` row: the sparse per-group metric record. -/
structure AlignmentResult where
  alignment_group_id : Nat
  ce_rms : Option Int
  tm_rms : Option Int
  tm_seq_id : Option Int
  tm_score_chain_1 : Option Int
  tm_score_chain_2 : Option Int
  fc_rms : Option Int
  fc_identity : Option Int
  fc_similarity : Option Int
  fc_score : Option Int
  fc_align_len : Option Int
deriving DecidableEq, Repr

/-! ## Pending-Work Resolver (`_get_clusters_with_pending_alignments`) -/

/-- `group_to_entries`: `defaultdict(set)` grouping the joined
(AlignmentGroupEntry x AlignmentResult) rows by group id, collecting the
set of result-bearing entry ids of each group. -/
def groupEntrySets (rows : List GroupEntryRow) : List (Nat × Finset Nat) :=
  foldUpd (fun row => row.alignment_group_id) (∅ : Finset Nat)
    (fun s row => insert row.subcluster_entry_id s) rows []

/-- The entry ids of one group's membership rows, in row order. -/
def rowEntries (rows : List GroupEntryRow) (g : Nat) : List Nat :=
  (rows.filter fun row => row.alignment_group_id == g).map
    (fun row => row.subcluster_entry_id)

/-- The entry-id set of one group, written directly over the rows. -/
def entrySetRows (rows : List GroupEntryRow) (g : Nat) : Finset Nat :=
  (rowEntries rows g).toFinset

/-- `completed_pairs`: keep only the groups with exactly two result-bearing
entries; each contributes its entry set (a `frozenset` of size 2). -/
def completedPairs (rows : List GroupEntryRow) : List (Finset Nat) :=
  ((groupEntrySets rows).map Prod.snd).filter (fun s => s.card == 2)

/-- `cluster_to_entries`: representative entry ids grouped by cluster id
(`defaultdict(list)`), in row order. -/
def clusterToEntries (rows : List RepRow) : List (Nat × List Nat) :=
  foldUpd (fun row => row.cluster_id) ([] : List Nat)
    (fun l row => l ++ [row.entry_id]) rows []

/-- The representative entry ids of one cluster, in row order. -/
def entriesOfCluster (rows : List RepRow) (c : Nat) : List Nat :=
  (rows.filter fun row => row.cluster_id == c).map (fun row => row.entry_id)

/-- `all_possible`: the C(n,2) unordered pairs of a cluster's entries,
each as a `frozenset`. -/
def pairsOf (es : List Nat) : List (Finset Nat) :=
  (pairsL es).map (fun p => ({p.1, p.2} : Finset Nat))

/-- `_get_clusters_with_pending_alignments`, step 3: clusters with at least
two representative entries and at least one pair missing from
`completed_pairs`. -/
def getClustersWithPendingAlignments (repRows : List RepRow)
    (resRows : List GroupEntryRow) : List Nat :=
  (clusterToEntries repRows).filterMap fun kv =>
    if kv.2.length < 2 then none
    else if (pairsOf kv.2).any (fun p => decide (p ∉ completedPairs resRows)) then some kv.1
    else none

/-! ## Work Enqueuer (`enqueue`) -/

/-- One row of `_get_entries_for_clusters` (entry id, file path,
subcluster id, cluster id).  File paths are opaque strings. -/
structure FetchRow where
  subcluster_entry_id : Nat
  file_path : String
  subcluster_id : Nat
  cluster_id : Nat
deriving DecidableEq, Repr

/-- One element of a task descriptor's `subclusters` list. -/
structure SubEntryDict where
  subcluster_entry_id : Nat
  file_path : String
  subcluster_id : Nat
deriving DecidableEq, Repr

/-- A published task descriptor `{cluster_id, subclusters}`. -/
structure TaskDescriptor where
  cluster_id : Nat
  subclusters : List SubEntryDict
deriving DecidableEq, Repr

/-- `clusters_dict` in `enqueue`: fetched rows grouped by cluster id. -/
def clustersDict (rows : List FetchRow) : List (Nat × List SubEntryDict) :=
  foldUpd (fun row => row.cluster_id) ([] : List SubEntryDict)
    (fun l row => l ++ [⟨row.subcluster_entry_id, row.file_path, row.subcluster_id⟩]) rows []

/-- The tasks `enqueue` publishes: one per cluster whose grouped entry list
has at least two elements (`if len(subcluster_list) < 2: continue`). -/
def enqueue (rows : List FetchRow) : List TaskDescriptor :=
  (clustersDict rows).filterMap fun kv =>
    if kv.2.length < 2 then none else some ⟨kv.1, kv.2⟩

/-! ## Pair-Alignment Executor and Result Merger (`process`) -/

/-- `task_pair_data` handed to one `align_task` invocation. -/
structure PairTask where
  cluster_id : Nat
  alignment_type_id : Nat
  subcluster_entry_1_id : Nat
  subcluster_entry_2_id : Nat
  subcluster_1_file_path : String
  subcluster_2_file_path : String
deriving DecidableEq, Repr

def mkTask (cid t : Nat) (s1 s2 : SubEntryDict) : PairTask :=
  ⟨cid, t, s1.subcluster_entry_id, s2.subcluster_entry_id, s1.file_path, s2.file_path⟩

/-- The dict returned by a comparison capability (`align_task`), as read by
the merge loop: the two entry ids, the cluster id, the algorithm-type tag,
and the per-algorithm metric values as `dict.get` results. -/
structure RawResult where
  subcluster_entry_1_id : Nat
  subcluster_entry_2_id : Nat
  cluster_id : Nat
  alignment_type_id : Nat
  ce_rms : Option Int
  tm_rms : Option Int
  tm_seq_id : Option Int
  tm_score_chain_1 : Option Int
  tm_score_chain_2 : Option Int
  fc_rms : Option Int
  fc_identity : Option Int
  fc_similarity : Option Int
  fc_score : Option Int
  fc_align_len : Option Int
deriving DecidableEq, Repr

/-- One outcome of the external comparison capability: a result dict, a
falsy "no result" value, or a raised exception. -/
inductive AlignOutcome where
  | ok (r : RawResult)
  | noResult
  | raiseExn
deriving DecidableEq, Repr

/-- One entry of `pair_results[key]`: a Python dict whose keys appear as the
merge loop writes them.  `none` means the key is absent; `some v` means the
key is present with value `v` (itself an `Option Int`, since the source
writes `r.get(...)` results, which may be `None`). -/
structure Merged where
  subcluster_entry_1_id : Option Nat
  subcluster_entry_2_id : Option Nat
  cluster_id : Option Nat
  ce_rms : Option (Option Int)
  tm_rms : Option (Option Int)
  tm_seq_id : Option (Option Int)
  tm_score_chain_1 : Option (Option Int)
  tm_score_chain_2 : Option (Option Int)
  fc_rms : Option (Option Int)
  fc_identity : Option (Option Int)
  fc_similarity : Option (Option Int)
  fc_score : Option (Option Int)
  fc_align_len : Option (Option Int)
deriving DecidableEq, Repr

/-- The empty dict `pair_results[key]` starts from (`defaultdict(dict)`). -/
def emptyMerged : Merged :=
  ⟨none, none, none, none, none, none, none, none, none, none, none, none, none⟩

/-- The body of the merge loop for one tuple `r`: always (re)write the two
entry ids and the cluster id, then — dispatched strictly on
`alignment_type_id` — write the metric subset owned by that algorithm. -/
def mergeStep (m : Merged) (r : RawResult) : Merged :=
  if r.alignment_type_id = 1 then
    { m with
      subcluster_entry_1_id := some r.subcluster_entry_1_id
      subcluster_entry_2_id := some r.subcluster_entry_2_id
      cluster_id := some r.cluster_id
      ce_rms := some r.ce_rms }
  else if r.alignment_type_id = 2 then
    { m with
      subcluster_entry_1_id := some r.subcluster_entry_1_id
      subcluster_entry_2_id := some r.subcluster_entry_2_id
      cluster_id := some r.cluster_id
      tm_rms := some r.tm_rms
      tm_seq_id := some r.tm_seq_id
      tm_score_chain_1 := some r.tm_score_chain_1
      tm_score_chain_2 := some r.tm_score_chain_2 }
  else if r.alignment_type_id = 3 then
    { m with
      subcluster_entry_1_id := some r.subcluster_entry_1_id
      subcluster_entry_2_id := some r.subcluster_entry_2_id
      cluster_id := some r.cluster_id
      fc_rms := some r.fc_rms
      fc_identity := some r.fc_identity
      fc_similarity := some r.fc_similarity
      fc_score := some r.fc_score
      fc_align_len := some r.fc_align_len }
  else
    { m with
      subcluster_entry_1_id := some r.subcluster_entry_1_id
      subcluster_entry_2_id := some r.subcluster_entry_2_id
      cluster_id := some r.cluster_id }

/-- `key = frozenset((r[...1_id], r[...2_id]))`: the unordered pair key. -/
def pairKey (r : RawResult) : Finset Nat :=
  {r.subcluster_entry_1_id, r.subcluster_entry_2_id}

/-- `pair_results`: the whole merge loop over the collected results. -/
def mergeResults (rs : List RawResult) : List (Finset Nat × Merged) :=
  foldUpd pairKey emptyMerged mergeStep rs []

/-! ## Idempotent Store (`store_entry`) -/

/-- One merged record as `store_entry` reads it: the three mandatory id
keys (`r["..."]`) and the ten metric values (`r.get("...")`). -/
structure StoreRec where
  subcluster_entry_1_id : Nat
  subcluster_entry_2_id : Nat
  cluster_id : Nat
  ce_rms : Option Int
  tm_rms : Option Int
  tm_seq_id : Option Int
  tm_score_chain_1 : Option Int
  tm_score_chain_2 : Option Int
  fc_rms : Option Int
  fc_identity : Option Int
  fc_similarity : Option Int
  fc_score : Option Int
  fc_align_len : Option Int
deriving DecidableEq, Repr

/-- Read a merged dict the way `store_entry` does: the three id keys with
`r[...]` (present or the record is unusable), the metrics with `r.get(...)`
(absent key and present-`None` both collapse to `none`). -/
def toStoreRec (m : Merged) : Option StoreRec :=
  match m.subcluster_entry_1_id, m.subcluster_entry_2_id, m.cluster_id with
  | some a, some b, some c =>
      some ⟨a, b, c, m.ce_rms.join, m.tm_rms.join, m.tm_seq_id.join,
        m.tm_score_chain_1.join, m.tm_score_chain_2.join, m.fc_rms.join,
        m.fc_identity.join, m.fc_similarity.join, m.fc_score.join, m.fc_align_len.join⟩
  | _, _, _ => none

/-- The persisted state the store reads and writes: `SubclusterEntry` ids,
`AlignmentGroup` ids in creation order, `AlignmentGroupEntry` rows,
`AlignmentResult` rows, and the autoincrement counter for group ids. -/
structure DB where
  subclusterEntries : List Nat
  groups : List Nat
  groupEntries : List GroupEntryRow
  results : List AlignmentResult
  nextGroupId : Nat
deriving DecidableEq, Repr

/-- The `HAVING func.count(...) == 2` aggregate of the group-lookup query:
the number of membership rows of group `g` whose entry id is among
`[a, b]` (the `WHERE ... IN` filter runs before the count). -/
def matchCount (db : DB) (g a b : Nat) : Nat :=
  (db.groupEntries.filter fun row =>
    row.alignment_group_id == g &&
      (row.subcluster_entry_id == a || row.subcluster_entry_id == b)).length

/-- The group-lookup query of `store_entry` (join on entries, filter entry id
in `[sub1.id, sub2.id]`, group by group, having count == 2, `.first()`).
`.first()` is modelled as the first group in table order that satisfies
the aggregate. -/
def findGroup (db : DB) (a b : Nat) : Option Nat :=
  db.groups.find? (fun g => matchCount db g a b == 2)

/-- `session.query(AlignmentResult).filter_by(alignment_group_id=g).first()`
is some result. -/
def hasResult (db : DB) (g : Nat) : Bool :=
  db.results.any (fun res => res.alignment_group_id == g)

/-- The `AlignmentResult(...)` constructor call in `store_entry`. -/
def mkResult (g : Nat) (r : StoreRec) : AlignmentResult :=
  ⟨g, r.ce_rms, r.tm_rms, r.tm_seq_id, r.tm_score_chain_1, r.tm_score_chain_2,
    r.fc_rms, r.fc_identity, r.fc_similarity, r.fc_score, r.fc_align_len⟩

/-- `AlignmentGroup()` + `flush` + the two `AlignmentGroupEntry` adds of
`store_entry`: a fresh group id and its two membership rows. -/
def createGroup (db : DB) (a b : Nat) : DB :=
  { db with
    groups := db.groups ++ [db.nextGroupId]
    nextGroupId := db.nextGroupId + 1
    groupEntries := db.groupEntries ++ [⟨db.nextGroupId, a⟩, ⟨db.nextGroupId, b⟩] }

/-- `session.add(AlignmentResult(...))`. -/
def addResult (db : DB) (g : Nat) (r : StoreRec) : DB :=
  { db with results := db.results ++ [mkResult g r] }

/-- One iteration of the `store_entry` loop on the session state, with no
exception raised: resolve both entries (skip if either is missing), look up
or create the alignment group with its two membership rows, then insert a
result only if the group has none yet.  Returns the new state and whether a
result was inserted. -/
def storeStepDB (db : DB) (r : StoreRec) : DB × Bool :=
  if db.subclusterEntries.contains r.subcluster_entry_1_id
      && db.subclusterEntries.contains r.subcluster_entry_2_id then
    match findGroup db r.subcluster_entry_1_id r.subcluster_entry_2_id with
    | some g =>
        if hasResult db g then (db, false)
        else (addResult db g r, true)
    | none =>
        if hasResult (createGroup db r.subcluster_entry_1_id r.subcluster_entry_2_id)
            db.nextGroupId then
          (createGroup db r.subcluster_entry_1_id r.subcluster_entry_2_id, false)
        else
          (addResult (createGroup db r.subcluster_entry_1_id r.subcluster_entry_2_id)
            db.nextGroupId r, true)
  else (db, false)

/-- The `store_entry` loop threading the `inserted` counter. -/
def storeStep (acc : DB × Nat) (r : StoreRec) : DB × Nat :=
  let s := storeStepDB acc.1 r
  (s.1, if s.2 then acc.2 + 1 else acc.2)

/-- `store_entry` on a batch, no exception raised: the loop followed by
`session.commit()`.  Returns the committed state and the `inserted` count. -/
def storeEntry (db : DB) (recs : List StoreRec) : DB × Nat :=
  recs.foldl storeStep (db, 0)

/-- The state after `store_entry`, ignoring the counter. -/
def storeFold (db : DB) (recs : List StoreRec) : DB :=
  recs.foldl (fun d r => (storeStepDB d r).1) db

/-- Any number of `store_entry` invocations in sequence. -/
def storeRuns (db : DB) (batches : List (List StoreRec)) : DB :=
  batches.foldl (fun d b => (storeEntry d b).1) db

/-! ### `store_entry` with an injected failure

`storeLoopF` instruments the same loop with an operation counter; the
failure schedule `failAt` names the session operation (query / add / flush /
commit) that raises `SQLAlchemyError`.  The surrounding `try/except` rolls
the whole transaction back to the pre-call state and logs one error for the
whole batch. -/

/-- One session operation: raises if the schedule says so. -/
def opTick (failAt : Option Nat) (c : Nat) : Except Unit Nat :=
  if failAt = some c then .error () else .ok (c + 1)

/-- The `store_entry` loop over the pending (uncommitted) session state,
raising at the scheduled operation. -/
def storeLoopF (failAt : Option Nat) :
    List StoreRec → DB → Nat → Nat → Except Unit (DB × Nat × Nat)
  | [], db, ins, c => .ok (db, ins, c)
  | r :: rest, db, ins, c => do
      let c ← opTick failAt c      -- session.query(SubclusterEntry).get(sub1_id)
      let c ← opTick failAt c      -- session.query(SubclusterEntry).get(sub2_id)
      if db.subclusterEntries.contains r.subcluster_entry_1_id
          && db.subclusterEntries.contains r.subcluster_entry_2_id then
        let c ← opTick failAt c    -- the group-lookup query
        match findGroup db r.subcluster_entry_1_id r.subcluster_entry_2_id with
        | some g =>
            let c ← opTick failAt c  -- the existing-result query
            if hasResult db g then
              storeLoopF failAt rest db ins c
            else
              let c ← opTick failAt c  -- session.add(result)
              storeLoopF failAt rest
                { db with results := db.results ++ [mkResult g r] } (ins + 1) c
        | none =>
            let c ← opTick failAt c  -- session.add(group)
            let c ← opTick failAt c  -- session.flush()
            let c ← opTick failAt c  -- session.add(entry 1 row)
            let c ← opTick failAt c  -- session.add(entry 2 row)
            let c ← opTick failAt c  -- the existing-result query
            if hasResult (createGroup db r.subcluster_entry_1_id r.subcluster_entry_2_id)
                db.nextGroupId then
              storeLoopF failAt rest
                (createGroup db r.subcluster_entry_1_id r.subcluster_entry_2_id) ins c
            else
              let c ← opTick failAt c  -- session.add(result)
              storeLoopF failAt rest
                (addResult (createGroup db r.subcluster_entry_1_id r.subcluster_entry_2_id)
                  db.nextGroupId r) (ins + 1) c
      else
        storeLoopF failAt rest db ins c  -- missing entries: skip, logged

/-- Outcome of one `store_entry` call: the committed state, the `inserted`
count, whether the `except` branch ran, and how many batch-level error
reports the `except` branch emitted. -/
structure StoreOutcome where
  db : DB
  inserted : Nat
  failed : Bool
  failureReports : Nat
deriving DecidableEq, Repr

/-- `store_entry` with a failure schedule: on success the pending state is
committed (the commit itself is an operation that may raise); on any raise
the transaction is rolled back to the pre-call state and exactly one error
is reported for the batch. -/
def storeEntryF (db : DB) (recs : List StoreRec) (failAt : Option Nat) : StoreOutcome :=
  match storeLoopF failAt recs db 0 0 with
  | .ok (pending, ins, c) =>
      match opTick failAt c with   -- session.commit()
      | .ok _ => ⟨pending, ins, false, 0⟩
      | .error _ => ⟨db, 0, true, 1⟩
  | .error _ => ⟨db, 0, true, 1⟩

/-! ### Store-state invariants -/

/-- At most one `AlignmentResult` row per alignment group. -/
def atMostOneResult (db : DB) : Prop :=
  ∀ g, (db.results.filter fun res => res.alignment_group_id == g).length ≤ 1

/-- The autoincrement counter is ahead of every persisted id that refers to
an alignment group (ids are fresh, as the database guarantees). -/
def freshDB (db : DB) : Prop :=
  (∀ row ∈ db.groupEntries, row.alignment_group_id < db.nextGroupId) ∧
  (∀ g ∈ db.groups, g < db.nextGroupId) ∧
  (∀ res ∈ db.results, res.alignment_group_id < db.nextGroupId)

/-- No duplicated membership edge: each group's membership rows carry
pairwise distinct entry ids. -/
def noDupEdges (db : DB) : Prop :=
  ∀ g, (rowEntries db.groupEntries g).Nodup

/-- At most one `AlignmentGroup` whose entry membership is exactly a given
two-element pair. -/
def pairUnique (db : DB) : Prop :=
  ∀ g₁ ∈ db.groups, ∀ g₂ ∈ db.groups,
    (entrySetRows db.groupEntries g₁).card = 2 →
    entrySetRows db.groupEntries g₁ = entrySetRows db.groupEntries g₂ → g₁ = g₂

/-! ## `process`: the per-cluster unit (executor, merger, store call) -/

/-- The consumed task data, with both fields read via `data.get(...)`. -/
structure TaskData where
  cluster_id : Option Nat
  subclusters : Option (List SubEntryDict)
deriving DecidableEq, Repr

/-- Invoke every configured algorithm type on the given pair
(`for type_id, module in self.types.items()`), collecting the successful
result dicts (tagged with their type id) and counting the invocations.
A raised exception propagates; the error payload carries the invocation
count so far. -/
def collectTypes (oracle : PairTask → AlignOutcome) (cid : Nat) (s1 s2 : SubEntryDict) :
    List Nat → Except Nat (List RawResult × Nat)
  | [] => .ok ([], 0)
  | t :: ts =>
      match oracle (mkTask cid t s1 s2) with
      | .raiseExn => .error 1
      | .noResult =>
          match collectTypes oracle cid s1 s2 ts with
          | .error n => .error (n + 1)
          | .ok (rs, n) => .ok (rs, n + 1)
      | .ok r =>
          match collectTypes oracle cid s1 s2 ts with
          | .error n => .error (n + 1)
          | .ok (rs, n) => .ok ({ r with alignment_type_id := t } :: rs, n + 1)

/-- The pair loop of `process` (`for s1, s2 in combinations(subclusters, 2)`). -/
def collectGo (oracle : PairTask → AlignOutcome) (cid : Nat) (types : List Nat) :
    List (SubEntryDict × SubEntryDict) → Except Nat (List RawResult × Nat)
  | [] => .ok ([], 0)
  | (s1, s2) :: rest =>
      match collectTypes oracle cid s1 s2 types with
      | .error n => .error n
      | .ok (rs1, n1) =>
          match collectGo oracle cid types rest with
          | .error n => .error (n1 + n)
          | .ok (rs2, n2) => .ok (rs1 ++ rs2, n1 + n2)

/-- What the `try` body of `process` produces when it does not raise. -/
structure ProcOk where
  db : DB
  alignCalls : Nat
  storeCalls : Nat
  merged : List Merged
deriving DecidableEq, Repr

/-- The `try` body of `process`: validate the task data (`not cluster_id or
not subclusters` raises `ValueError`, where `0`, `None`, and `[]` are all
falsy), run every pair x type invocation, merge, and call `store_entry` when
anything was merged.  `store_entry` handles its own exceptions and never
raises into this body.  An `.error` carries the align-invocation count made
before the raise. -/
def processBody (oracle : PairTask → AlignOutcome) (types : List Nat)
    (failAt : Option Nat) (db : DB) (data : TaskData) : Except Nat ProcOk :=
  match data.cluster_id, data.subclusters with
  | some cid, some subs =>
      if cid = 0 ∨ subs = [] then .error 0
      else
        match collectGo oracle cid types (pairsL subs) with
        | .error n => .error n
        | .ok (rs, n) =>
            let merged := (mergeResults rs).map Prod.snd
            if merged.isEmpty then .ok ⟨db, n, 0, merged⟩
            else
              let o := storeEntryF db (merged.filterMap toStoreRec) failAt
              .ok ⟨o.db, n, 1, merged⟩
  | _, _ => .error 0

/-- The observable outcome of one `process` invocation: final persisted
state, number of align invocations, number of `store_entry` calls, the
merged records handed to the store, and whether the outer `except` branch
ran (the error log). -/
structure ProcResult where
  db : DB
  alignCalls : Nat
  storeCalls : Nat
  merged : List Merged
  failed : Bool
deriving DecidableEq, Repr

/-- `process`: the `try` body wrapped in `except Exception`, which logs the
error and returns normally with no state change of its own. -/
def process (oracle : PairTask → AlignOutcome) (types : List Nat)
    (failAt : Option Nat) (db : DB) (data : TaskData) : ProcResult :=
  match processBody oracle types failAt db data with
  | .ok k => ⟨k.db, k.alignCalls, k.storeCalls, k.merged, false⟩
  | .error n => ⟨db, n, 0, [], true⟩

/-- Whether the full metric-field subset owned by algorithm type `t`
(1, 2 or 3) is present (as keys) in a merged record. -/
def typeFieldsSet (t : Nat) (m : Merged) : Bool :=
  if t = 1 then m.ce_rms.isSome
  else if t = 2 then
    m.tm_rms.isSome && m.tm_seq_id.isSome &&
      m.tm_score_chain_1.isSome && m.tm_score_chain_2.isSome
  else if t = 3 then
    m.fc_rms.isSome && m.fc_identity.isSome && m.fc_similarity.isSome &&
      m.fc_score.isSome && m.fc_align_len.isSome
  else false

/-- Whether the full metric-field subset owned by algorithm type `t`
(1, 2 or 3) is absent (no such key) from a merged record. -/
def typeFieldsClear (t : Nat) (m : Merged) : Bool :=
  if t = 1 then m.ce_rms.isNone
  else if t = 2 then
    m.tm_rms.isNone && m.tm_seq_id.isNone &&
      m.tm_score_chain_1.isNone && m.tm_score_chain_2.isNone
  else if t = 3 then
    m.fc_rms.isNone && m.fc_identity.isNone && m.fc_similarity.isNone &&
      m.fc_score.isNone && m.fc_align_len.isNone
  else true

/-! ## Concrete states and inputs used to evaluate the development -/

/-- A malformed persisted state: alignment group `0` has three membership
rows (entries 1, 2, 3). -/
def dbSuperset : DB := ⟨[1, 2, 3], [0], [⟨0, 1⟩, ⟨0, 2⟩, ⟨0, 3⟩], [], 1⟩

/-- A merged record for the pair `(1, 2)` of cluster `5`. -/
def recPair12 : StoreRec :=
  ⟨1, 2, 5, some 12, none, none, none, none, none, none, none, none, none⟩

/-- The same pair as `recPair12` with different metric values. -/
def recPair12x : StoreRec :=
  ⟨1, 2, 5, some 99, some 7, none, none, none, none, none, none, none, none⟩

/-- A clean state with two subcluster entries and no alignment data. -/
def dbTwoEntries : DB := ⟨[1, 2], [], [], [], 0⟩

/-- Representative rows: cluster 7 has entries 10 and 11, cluster 8 has
only entry 12. -/
def repRowsW : List RepRow := [⟨10, 100, 7⟩, ⟨11, 101, 7⟩, ⟨12, 102, 8⟩]

/-- Fetched rows matching `repRowsW`. -/
def fetchRowsW : List FetchRow :=
  [⟨10, "a", 100, 7⟩, ⟨11, "b", 101, 7⟩, ⟨12, "c", 102, 8⟩]

/-- One algorithm-1 result tuple for the pair `(1, 2)` of cluster 7. -/
def rsW : List RawResult :=
  [⟨1, 2, 7, 1, some 12, none, none, none, none, none, none, none, none, none⟩]

/-- The merged record produced from `rsW`. -/
def mW : Merged :=
  ⟨some 1, some 2, some 7, some (some 12), none, none, none, none, none,
    none, none, none, none⟩

/-- Result-bearing membership rows: group 0 has three entries (malformed),
group 1 has the pair `{4, 5}`. -/
def resRows6 : List GroupEntryRow := [⟨0, 1⟩, ⟨0, 2⟩, ⟨0, 3⟩, ⟨1, 4⟩, ⟨1, 5⟩]

/-- Two task entries forming one pair. -/
def subsW : List SubEntryDict := [⟨1, "p1", 100⟩, ⟨2, "p2", 101⟩]

/-- The dict algorithm 2 reports for the pair `(1, 2)` in cluster 7. -/
def r1W : RawResult :=
  ⟨1, 2, 7, 0, none, some 8, some 5, some 9, some 95, none, none, none, none, none⟩

/-- A comparison capability that answers only for algorithm type 2 and
echoes the task's ids; every other type gets a falsy "no result". -/
def oracleW : PairTask → AlignOutcome := fun task =>
  if task.alignment_type_id = 2 then
    .ok ⟨task.subcluster_entry_1_id, task.subcluster_entry_2_id, task.cluster_id, 0,
      none, some 8, some 5, some 9, some 95, none, none, none, none, none⟩
  else .noResult

/-! ## Lemmas: association lists and `defaultdict` folds -/

theorem lookupA_upd_self {K V : Type} [DecidableEq K] (k : K) (v : V) (l : List (K × V)) :
    lookupA k (upd k v l) = some v := by
  induction l with
  | nil => simp [upd, lookupA]
  | cons p t ih =>
      obtain ⟨k', v'⟩ := p
      by_cases hk : k' = k
      · simp [upd, hk, lookupA]
      · simp [upd, hk, lookupA, ih]

theorem lookupA_upd_ne {K V : Type} [DecidableEq K] {k' k : K} (h : k ≠ k') (v : V)
    (l : List (K × V)) : lookupA k' (upd k v l) = lookupA k' l := by
  induction l with
  | nil => simp [upd, lookupA, h]
  | cons p t ih =>
      obtain ⟨k₀, v₀⟩ := p
      by_cases hk : k₀ = k
      · subst hk
        simp [upd, lookupA, h]
      · simp [upd, hk, lookupA, ih]

theorem mem_keys_upd {K V : Type} [DecidableEq K] {k₀ k : K} {v : V} {l : List (K × V)}
    (h : k₀ ∈ (upd k v l).map Prod.fst) : k₀ ∈ l.map Prod.fst ∨ k₀ = k := by
  induction l with
  | nil => simpa [upd] using h
  | cons p t ih =>
      obtain ⟨k', v'⟩ := p
      by_cases hk : k' = k
      · subst hk
        simp [upd] at h
        rcases h with h | h
        · exact Or.inr h
        · exact Or.inl (by simp [h])
      · simp only [upd, if_neg hk, List.map_cons, List.mem_cons] at h
        rcases h with h | h
        · exact Or.inl (by simp [h])
        · rcases ih h with h' | h'
          · exact Or.inl (by simp at h' ⊢; exact Or.inr h')
          · exact Or.inr h'

theorem nodupKeys_upd {K V : Type} [DecidableEq K] {l : List (K × V)} (k : K) (v : V)
    (h : (l.map Prod.fst).Nodup) : ((upd k v l).map Prod.fst).Nodup := by
  induction l with
  | nil => simp [upd]
  | cons p t ih =>
      obtain ⟨k', v'⟩ := p
      simp only [List.map_cons, List.nodup_cons] at h
      by_cases hk : k' = k
      · subst hk
        simpa [upd, List.nodup_cons] using h
      · simp only [upd, if_neg hk, List.map_cons, List.nodup_cons]
        refine ⟨fun hmem => ?_, ih h.2⟩
        rcases mem_keys_upd hmem with h' | h'
        · exact h.1 h'
        · exact hk h'

theorem lookupA_isSome_iff_mem_keys {K V : Type} [DecidableEq K] (k : K) (l : List (K × V)) :
    (lookupA k l).isSome ↔ k ∈ l.map Prod.fst := by
  induction l with
  | nil => simp [lookupA]
  | cons p t ih =>
      obtain ⟨k', v'⟩ := p
      by_cases hk : k' = k
      · subst hk
        simp [lookupA]
      · simp [lookupA, hk, ih, Ne.symm hk]

theorem mem_of_lookupA_eq_some {K V : Type} [DecidableEq K] {k : K} {v : V}
    {l : List (K × V)} (h : lookupA k l = some v) : (k, v) ∈ l := by
  induction l with
  | nil => simp [lookupA] at h
  | cons p t ih =>
      obtain ⟨k', v'⟩ := p
      by_cases hk : k' = k
      · subst hk
        have h' : v' = v := by simpa [lookupA] using h
        simp [h']
      · simp only [lookupA, if_neg hk] at h
        exact List.mem_cons_of_mem _ (ih h)

theorem lookupA_eq_some_of_mem {K V : Type} [DecidableEq K] {k : K} {v : V}
    {l : List (K × V)} (hmem : (k, v) ∈ l) (hnd : (l.map Prod.fst).Nodup) :
    lookupA k l = some v := by
  induction l with
  | nil => simp at hmem
  | cons p t ih =>
      obtain ⟨k', v'⟩ := p
      simp only [List.map_cons, List.nodup_cons] at hnd
      rcases List.mem_cons.mp hmem with h | h
      · obtain ⟨h1, h2⟩ := Prod.mk.injEq .. ▸ h
        subst h1; subst h2
        simp [lookupA]
      · have hne : k' ≠ k := by
          rintro rfl
          exact hnd.1 (by simpa using List.mem_map_of_mem Prod.fst h)
        simp only [lookupA, if_neg hne]
        exact ih h hnd.2

theorem foldUpd_cons {K V A : Type} [DecidableEq K] (key : A → K) (d : V) (step : V → A → V)
    (a : A) (xs : List A) (l : List (K × V)) :
    foldUpd key d step (a :: xs) l =
      foldUpd key d step xs (upd (key a) (step ((lookupA (key a) l).getD d) a) l) := rfl

/-- The central `defaultdict` lemma: the value finally bound at key `k` is
the `step`-fold over exactly the elements whose key is `k`, in order. -/
theorem lookupA_foldUpd {K V A : Type} [DecidableEq K] (key : A → K) (d : V)
    (step : V → A → V) (xs : List A) (l : List (K × V)) (k : K) :
    lookupA k (foldUpd key d step xs l) =
      match lookupA k l with
      | some v => some ((xs.filter fun a => decide (key a = k)).foldl step v)
      | none =>
          if (xs.filter fun a => decide (key a = k)).isEmpty then none
          else some ((xs.filter fun a => decide (key a = k)).foldl step d) := by
  induction xs generalizing l with
  | nil =>
      cases h : lookupA k l with
      | none => simp [foldUpd, h]
      | some v => simp [foldUpd, h]
  | cons a xs ih =>
      rw [foldUpd_cons, ih]
      by_cases hk : key a = k
      · subst hk
        rw [lookupA_upd_self]
        cases h : lookupA (key a) l with
        | none => simp [h, List.filter_cons]
        | some v => simp [h, List.filter_cons]
      · rw [lookupA_upd_ne hk]
        cases h : lookupA k l with
        | none => simp [h, List.filter_cons, hk]
        | some v => simp [h, List.filter_cons, hk]

theorem nodupKeys_foldUpd {K V A : Type} [DecidableEq K] (key : A → K) (d : V)
    (step : V → A → V) (xs : List A) {l : List (K × V)}
    (h : (l.map Prod.fst).Nodup) : ((foldUpd key d step xs l).map Prod.fst).Nodup := by
  induction xs generalizing l with
  | nil => exact h
  | cons a xs ih => exact ih (nodupKeys_upd _ _ h)

/-- Membership in a `defaultdict` built from the empty dict is exactly
lookup success. -/
theorem mem_foldUpd_iff {K V A : Type} [DecidableEq K] (key : A → K) (d : V)
    (step : V → A → V) (xs : List A) (k : K) (v : V) :
    (k, v) ∈ foldUpd key d step xs [] ↔ lookupA k (foldUpd key d step xs []) = some v := by
  constructor
  · intro h
    exact lookupA_eq_some_of_mem h (nodupKeys_foldUpd key d step xs (by simp))
  · exact mem_of_lookupA_eq_some

/-- Appending through a fold, for the `defaultdict(list)` groupings. -/
theorem foldl_append_singleton {A B : Type} (f : A → B) (xs : List A) (acc : List B) :
    xs.foldl (fun l a => l ++ [f a]) acc = acc ++ xs.map f := by
  induction xs generalizing acc with
  | nil => simp
  | cons a xs ih => simp [ih]

/-- Inserting through a fold, for the `defaultdict(set)` grouping. -/
theorem foldl_insert_toFinset (xs : List Nat) (s : Finset Nat) :
    xs.foldl (fun acc e => insert e acc) s = s ∪ xs.toFinset := by
  induction xs generalizing s with
  | nil => simp
  | cons a xs ih =>
      simp only [List.foldl_cons, ih, List.toFinset_cons]
      ext x
      simp [or_comm, or_left_comm]

/-! ## Lemmas: Pending-Work Resolver -/

theorem beq_eq_decide (a b : Nat) : (a == b) = decide (a = b) := by
  by_cases h : a = b <;> simp [h]

theorem filter_beq_eq_filter_decide {α : Type} (f : α → Nat) (c : Nat) (l : List α) :
    (l.filter fun a => f a == c) = l.filter fun a => decide (f a = c) := by
  apply List.filter_congr
  intro a _
  exact beq_eq_decide (f a) c

theorem lookupA_clusterToEntries (rows : List RepRow) (c : Nat) :
    lookupA c (clusterToEntries rows) =
      if (entriesOfCluster rows c).isEmpty then none
      else some (entriesOfCluster rows c) := by
  have h := lookupA_foldUpd (fun row : RepRow => row.cluster_id) ([] : List Nat)
    (fun l row => l ++ [row.entry_id]) rows [] c
  simp only [lookupA] at h
  rw [clusterToEntries, h]
  have hf : entriesOfCluster rows c =
      (rows.filter fun a => decide (a.cluster_id = c)).map (fun row => row.entry_id) := by
    rw [entriesOfCluster, filter_beq_eq_filter_decide (fun row : RepRow => row.cluster_id)]
  rw [hf, foldl_append_singleton]
  cases hrc : rows.filter fun a => decide (a.cluster_id = c) with
  | nil => simp
  | cons x t => simp

theorem lookupA_groupEntrySets (rows : List GroupEntryRow) (g : Nat) :
    lookupA g (groupEntrySets rows) =
      if (rows.filter fun row => row.alignment_group_id == g).isEmpty then none
      else some (entrySetRows rows g) := by
  have h := lookupA_foldUpd (fun row : GroupEntryRow => row.alignment_group_id)
    (∅ : Finset Nat) (fun s row => insert row.subcluster_entry_id s) rows [] g
  simp only [lookupA] at h
  rw [groupEntrySets, h]
  have hfe : (rows.filter fun a => decide (a.alignment_group_id = g)) =
      rows.filter fun row => row.alignment_group_id == g :=
    (filter_beq_eq_filter_decide (fun row : GroupEntryRow => row.alignment_group_id) g rows).symm
  rw [hfe]
  have hfold : ∀ fs : List GroupEntryRow,
      fs.foldl (fun s row => insert row.subcluster_entry_id s) ∅ =
        (fs.map fun row => row.subcluster_entry_id).toFinset := by
    intro fs
    rw [← List.foldl_map (fun row : GroupEntryRow => row.subcluster_entry_id)
      (fun s e => insert e s), foldl_insert_toFinset]
    simp
  rw [hfold, entrySetRows, rowEntries]

theorem mem_groupEntrySets_iff (rows : List GroupEntryRow) (g : Nat) (s : Finset Nat) :
    (g, s) ∈ groupEntrySets rows ↔
      (∃ row ∈ rows, row.alignment_group_id = g) ∧ s = entrySetRows rows g := by
  rw [groupEntrySets, mem_foldUpd_iff, ← groupEntrySets, lookupA_groupEntrySets]
  by_cases hemp : ((rows.filter fun row => row.alignment_group_id == g).isEmpty = true)
  · rw [if_pos hemp]
    have hnil := List.isEmpty_iff.mp hemp
    constructor
    · intro h; cases h
    · rintro ⟨⟨row, hrow, hg⟩, _⟩
      have : row ∈ rows.filter fun row => row.alignment_group_id == g :=
        List.mem_filter.mpr ⟨hrow, by simp [hg]⟩
      rw [hnil] at this
      cases this
  · rw [if_neg hemp]
    have hne : (rows.filter fun row => row.alignment_group_id == g) ≠ [] := by
      intro h
      exact hemp (by simp [h])
    constructor
    · intro h
      refine ⟨?_, (Option.some.injEq .. ▸ h).symm⟩
      rcases List.exists_mem_of_ne_nil _ hne with ⟨row, hrow⟩
      have := List.mem_filter.mp hrow
      exact ⟨row, this.1, by simpa using this.2⟩
    · rintro ⟨_, rfl⟩
      rfl

/-- Membership in `completed_pairs`: exactly the entry sets of the groups
with exactly two result-bearing entries. -/
theorem mem_completedPairs (rows : List GroupEntryRow) (p : Finset Nat) :
    p ∈ completedPairs rows ↔
      ∃ g, (∃ row ∈ rows, row.alignment_group_id = g) ∧
        entrySetRows rows g = p ∧ p.card = 2 := by
  rw [completedPairs]
  constructor
  · intro h
    have h' := List.mem_filter.mp h
    rcases List.mem_map.mp h'.1 with ⟨⟨g, s⟩, hmem, hsnd⟩
    rcases (mem_groupEntrySets_iff rows g s).mp hmem with ⟨hex, hset⟩
    refine ⟨g, hex, ?_, ?_⟩
    · rw [← hset]; exact hsnd
    · have := h'.2
      simp only [beq_eq_decide, decide_eq_true_eq] at this
      exact this
  · rintro ⟨g, hex, hset, hcard⟩
    apply List.mem_filter.mpr
    constructor
    · exact List.mem_map.mpr ⟨(g, entrySetRows rows g),
        (mem_groupEntrySets_iff rows g _).mpr ⟨hex, rfl⟩, hset⟩
    · simp [hcard]

/-- Removing all the membership rows of one group leaves every other
group's entry list unchanged. -/
theorem rowEntries_erase_group (rows : List GroupEntryRow) (g₀ g : Nat) (h : g ≠ g₀) :
    rowEntries (rows.filter fun row => !(row.alignment_group_id == g₀)) g =
      rowEntries rows g := by
  rw [rowEntries, rowEntries, List.filter_filter]
  congr 1
  apply List.filter_congr
  intro row _
  by_cases hg : row.alignment_group_id = g
  · simp [hg, h]
  · simp [hg]

/-- The cluster-pending decision, characterised: a cluster id is returned
exactly when its representative entry list has at least two entries and at
least one of its unordered pairs is missing from `completed_pairs`. -/
theorem mem_getClustersWithPendingAlignments (repRows : List RepRow)
    (resRows : List GroupEntryRow) (c : Nat) :
    c ∈ getClustersWithPendingAlignments repRows resRows ↔
      2 ≤ (entriesOfCluster repRows c).length ∧
        ∃ p ∈ pairsOf (entriesOfCluster repRows c), p ∉ completedPairs resRows := by
  rw [getClustersWithPendingAlignments, List.mem_filterMap]
  constructor
  · rintro ⟨⟨c', es⟩, hmem, hval⟩
    by_cases hlen : es.length < 2
    · rw [if_pos hlen] at hval; cases hval
    rw [if_neg hlen] at hval
    by_cases hany : ((pairsOf es).any fun p => decide (p ∉ completedPairs resRows)) = true
    · rw [if_pos hany] at hval
      injection hval with hc
      subst hc
      have hlook := lookupA_eq_some_of_mem hmem
        (nodupKeys_foldUpd _ _ _ repRows (by simp))
      rw [lookupA_clusterToEntries] at hlook
      by_cases hemp : (entriesOfCluster repRows c').isEmpty
      · rw [if_pos hemp] at hlook; cases hlook
      · rw [if_neg hemp] at hlook
        injection hlook with hes
        subst hes
        refine ⟨by simpa using Nat.le_of_not_lt hlen, ?_⟩
        rcases List.any_eq_true.mp hany with ⟨p, hp, hdec⟩
        exact ⟨p, hp, by simpa using hdec⟩
    · rw [if_neg hany] at hval; cases hval
  · rintro ⟨hlen, p, hp, hnotin⟩
    have hne : ¬ (entriesOfCluster repRows c).isEmpty = true := by
      cases hcc : entriesOfCluster repRows c with
      | nil => rw [hcc] at hlen; simp at hlen
      | cons x t => simp
    have hlook : lookupA c (clusterToEntries repRows) = some (entriesOfCluster repRows c) := by
      rw [lookupA_clusterToEntries, if_neg hne]
    refine ⟨(c, entriesOfCluster repRows c), mem_of_lookupA_eq_some hlook, ?_⟩
    have hany : ((pairsOf (entriesOfCluster repRows c)).any
        fun p => decide (p ∉ completedPairs resRows)) = true :=
      List.any_eq_true.mpr ⟨p, hp, by simpa using hnotin⟩
    show (if (entriesOfCluster repRows c).length < 2 then none
      else if ((pairsOf (entriesOfCluster repRows c)).any
        fun p => decide (p ∉ completedPairs resRows)) = true then
          some c else none) = some c
    rw [if_neg (by omega), if_pos hany]

/-- Task descriptors published by `enqueue`, characterised. -/
theorem mem_enqueue (rows : List FetchRow) (td : TaskDescriptor) :
    td ∈ enqueue rows ↔
      (td.cluster_id, td.subclusters) ∈ clustersDict rows ∧ 2 ≤ td.subclusters.length := by
  rw [enqueue, List.mem_filterMap]
  constructor
  · rintro ⟨⟨c, l⟩, hmem, hval⟩
    by_cases hlen : l.length < 2
    · rw [if_pos hlen] at hval; cases hval
    · rw [if_neg hlen] at hval
      injection hval with hc
      subst hc
      exact ⟨hmem, by simpa using Nat.le_of_not_lt hlen⟩
  · rintro ⟨hmem, hlen⟩
    refine ⟨(td.cluster_id, td.subclusters), hmem, ?_⟩
    have hnl : ¬ td.subclusters.length < 2 := by omega
    rw [if_neg hnl]

/-! ## Lemmas: Result Merger -/

theorem mergeStep_ce_rms (m : Merged) (r : RawResult) :
    (mergeStep m r).ce_rms =
      if r.alignment_type_id = 1 then some r.ce_rms else m.ce_rms := by
  simp only [mergeStep]; split_ifs <;> first | rfl | omega

theorem mergeStep_tm_rms (m : Merged) (r : RawResult) :
    (mergeStep m r).tm_rms =
      if r.alignment_type_id = 2 then some r.tm_rms else m.tm_rms := by
  simp only [mergeStep]; split_ifs <;> first | rfl | omega

theorem mergeStep_tm_seq_id (m : Merged) (r : RawResult) :
    (mergeStep m r).tm_seq_id =
      if r.alignment_type_id = 2 then some r.tm_seq_id else m.tm_seq_id := by
  simp only [mergeStep]; split_ifs <;> first | rfl | omega

theorem mergeStep_tm_score_chain_1 (m : Merged) (r : RawResult) :
    (mergeStep m r).tm_score_chain_1 =
      if r.alignment_type_id = 2 then some r.tm_score_chain_1 else m.tm_score_chain_1 := by
  simp only [mergeStep]; split_ifs <;> first | rfl | omega

theorem mergeStep_tm_score_chain_2 (m : Merged) (r : RawResult) :
    (mergeStep m r).tm_score_chain_2 =
      if r.alignment_type_id = 2 then some r.tm_score_chain_2 else m.tm_score_chain_2 := by
  simp only [mergeStep]; split_ifs <;> first | rfl | omega

theorem mergeStep_fc_rms (m : Merged) (r : RawResult) :
    (mergeStep m r).fc_rms =
      if r.alignment_type_id = 3 then some r.fc_rms else m.fc_rms := by
  simp only [mergeStep]; split_ifs <;> first | rfl | omega

theorem mergeStep_fc_identity (m : Merged) (r : RawResult) :
    (mergeStep m r).fc_identity =
      if r.alignment_type_id = 3 then some r.fc_identity else m.fc_identity := by
  simp only [mergeStep]; split_ifs <;> first | rfl | omega

theorem mergeStep_fc_similarity (m : Merged) (r : RawResult) :
    (mergeStep m r).fc_similarity =
      if r.alignment_type_id = 3 then some r.fc_similarity else m.fc_similarity := by
  simp only [mergeStep]; split_ifs <;> first | rfl | omega

theorem mergeStep_fc_score (m : Merged) (r : RawResult) :
    (mergeStep m r).fc_score =
      if r.alignment_type_id = 3 then some r.fc_score else m.fc_score := by
  simp only [mergeStep]; split_ifs <;> first | rfl | omega

theorem mergeStep_fc_align_len (m : Merged) (r : RawResult) :
    (mergeStep m r).fc_align_len =
      if r.alignment_type_id = 3 then some r.fc_align_len else m.fc_align_len := by
  simp only [mergeStep]; split_ifs <;> first | rfl | omega

theorem mergeStep_entry_1 (m : Merged) (r : RawResult) :
    (mergeStep m r).subcluster_entry_1_id = some r.subcluster_entry_1_id := by
  simp only [mergeStep]; split_ifs <;> rfl

theorem mergeStep_entry_2 (m : Merged) (r : RawResult) :
    (mergeStep m r).subcluster_entry_2_id = some r.subcluster_entry_2_id := by
  simp only [mergeStep]; split_ifs <;> rfl

theorem mergeStep_cluster_id (m : Merged) (r : RawResult) :
    (mergeStep m r).cluster_id = some r.cluster_id := by
  simp only [mergeStep]; split_ifs <;> rfl

/-- Folding a function that overwrites with `some (g r)` is determined by
the last element. -/
theorem foldl_mark {α β : Type} (g : α → β) (l : List α) (a : Option β) :
    l.foldl (fun _ r => some (g r)) a = (l.getLast?.map fun r => some (g r)).getD a := by
  induction l generalizing a with
  | nil => rfl
  | cons x l ih =>
      cases l with
      | nil => rfl
      | cons y t =>
          rw [List.foldl_cons, ih, List.getLast?_cons_cons]
          cases h : (y :: t).getLast? with
          | none => simp at h
          | some z => simp [h]

theorem foldl_mark_isSome {α β : Type} (g : α → β) (l : List α) (a : Option β) :
    (l.foldl (fun _ r => some (g r)) a).isSome ↔ a.isSome ∨ l ≠ [] := by
  rw [foldl_mark]
  cases h : l.getLast? with
  | none => simp [List.getLast?_eq_none_iff.mp h]
  | some y =>
      have hne : l ≠ [] := by
        intro heq
        rw [heq] at h
        cases h
      simp [hne]

theorem foldl_mark_eq_some {α β : Type} (g : α → β) (l : List α) (a : Option β) (w : β)
    (h : l.foldl (fun _ r => some (g r)) a = some w) :
    (l = [] ∧ a = some w) ∨ ∃ r ∈ l, g r = w := by
  rw [foldl_mark] at h
  cases hl : l.getLast? with
  | none =>
      rw [hl] at h
      exact Or.inl ⟨List.getLast?_eq_none_iff.mp hl, h⟩
  | some y =>
      rw [hl] at h
      have h' : g y = w := by simpa using h
      exact Or.inr ⟨y, List.mem_of_mem_getLast? hl, h'⟩

/-- A metric field of the merged dict after the whole merge loop is the
overwrite-fold over exactly the tuples of its owning algorithm type. -/
theorem foldl_mergeStep_metric (f : Merged → Option (Option Int)) (g : RawResult → Option Int)
    (t : Nat)
    (hf : ∀ m r, f (mergeStep m r) = if r.alignment_type_id = t then some (g r) else f m)
    (rs : List RawResult) (m : Merged) :
    f (rs.foldl mergeStep m) =
      (rs.filter fun r => decide (r.alignment_type_id = t)).foldl
        (fun _ r => some (g r)) (f m) := by
  induction rs generalizing m with
  | nil => rfl
  | cons r rs ih =>
      rw [List.foldl_cons, ih]
      by_cases h : r.alignment_type_id = t
      · rw [hf, if_pos h, List.filter_cons, if_pos (by simp [h])]
        rfl
      · rw [hf, if_neg h, List.filter_cons, if_neg (by simp [h])]

/-- An id field of the merged dict is always rewritten by every tuple. -/
theorem foldl_mergeStep_idfield (f : Merged → Option Nat) (g : RawResult → Nat)
    (hf : ∀ m r, f (mergeStep m r) = some (g r))
    (rs : List RawResult) (m : Merged) :
    f (rs.foldl mergeStep m) = rs.foldl (fun _ r => some (g r)) (f m) := by
  induction rs generalizing m with
  | nil => rfl
  | cons r rs ih => rw [List.foldl_cons, ih, hf, List.foldl_cons]

/-- `pair_results[key]` after the merge loop: present exactly when some
tuple carries that key, and then it is the merge fold over these tuples. -/
theorem lookupA_mergeResults (rs : List RawResult) (k : Finset Nat) :
    lookupA k (mergeResults rs) =
      if (rs.filter fun r => decide (pairKey r = k)).isEmpty then none
      else some ((rs.filter fun r => decide (pairKey r = k)).foldl mergeStep emptyMerged) := by
  rw [mergeResults, lookupA_foldUpd]
  rfl

/-- Full specification of one metric field of a merged record: present
exactly when its owning algorithm reported for this pair, and any present
value comes from such a report (no other pair, no other algorithm). -/
theorem merged_metric_spec (f : Merged → Option (Option Int)) (g : RawResult → Option Int)
    (t : Nat)
    (hf : ∀ m r, f (mergeStep m r) = if r.alignment_type_id = t then some (g r) else f m)
    (hempty : f emptyMerged = none)
    (rs : List RawResult) (k : Finset Nat) (m : Merged)
    (hm : lookupA k (mergeResults rs) = some m) :
    ((f m).isSome ↔ ∃ r ∈ rs, pairKey r = k ∧ r.alignment_type_id = t) ∧
    (∀ w, f m = some w →
      ∃ r ∈ rs, pairKey r = k ∧ r.alignment_type_id = t ∧ g r = w) := by
  rw [lookupA_mergeResults] at hm
  by_cases hemp : ((rs.filter fun r => decide (pairKey r = k)).isEmpty = true)
  · rw [if_pos hemp] at hm; cases hm
  · rw [if_neg hemp] at hm
    injection hm with hm
    subst hm
    constructor
    · rw [foldl_mergeStep_metric f g t hf, hempty, foldl_mark_isSome]
      simp only [Option.isSome_none, Bool.false_eq_true, false_or]
      constructor
      · intro hne
        rcases List.exists_mem_of_ne_nil _ hne with ⟨r, hr⟩
        have h1 := List.mem_filter.mp hr
        have h2 := List.mem_filter.mp h1.1
        exact ⟨r, h2.1, by simpa using h2.2, by simpa using h1.2⟩
      · rintro ⟨r, hr, hk, ht⟩ heq
        have hmem : r ∈ (rs.filter fun r => decide (pairKey r = k)).filter
            fun r => decide (r.alignment_type_id = t) :=
          List.mem_filter.mpr ⟨List.mem_filter.mpr ⟨hr, by simpa using hk⟩, by simpa using ht⟩
        rw [heq] at hmem
        cases hmem
    · intro w hw
      rw [foldl_mergeStep_metric f g t hf, hempty] at hw
      rcases foldl_mark_eq_some _ _ _ _ hw with ⟨_, h0⟩ | ⟨r, hr, hgr⟩
      · cases h0
      · have h1 := List.mem_filter.mp hr
        have h2 := List.mem_filter.mp h1.1
        exact ⟨r, h2.1, by simpa using h2.2, by simpa using h1.2, hgr⟩

/-- Full specification of an id field of a merged record: always present,
and its value comes from a tuple of this pair. -/
theorem merged_idfield_spec (f : Merged → Option Nat) (g : RawResult → Nat)
    (hf : ∀ m r, f (mergeStep m r) = some (g r)) (hempty : f emptyMerged = none)
    (rs : List RawResult) (k : Finset Nat) (m : Merged)
    (hm : lookupA k (mergeResults rs) = some m) :
    (f m).isSome = true ∧
    (∀ w, f m = some w → ∃ r ∈ rs, pairKey r = k ∧ g r = w) := by
  rw [lookupA_mergeResults] at hm
  by_cases hemp : ((rs.filter fun r => decide (pairKey r = k)).isEmpty = true)
  · rw [if_pos hemp] at hm; cases hm
  · rw [if_neg hemp] at hm
    injection hm with hm
    subst hm
    have hne : (rs.filter fun r => decide (pairKey r = k)) ≠ [] := by
      intro h
      exact hemp (by simp [h])
    constructor
    · rw [foldl_mergeStep_idfield f g hf, hempty]
      exact (foldl_mark_isSome ..).mpr (Or.inr hne)
    · intro w hw
      rw [foldl_mergeStep_idfield f g hf, hempty] at hw
      rcases foldl_mark_eq_some _ _ _ _ hw with ⟨_, h0⟩ | ⟨r, hr, hgr⟩
      · cases h0
      · have h1 := List.mem_filter.mp hr
        exact ⟨r, h1.1, by simpa using h1.2, hgr⟩

/-- The merged output has one record per distinct pair key: the key list
has no duplicates, and a key occurs exactly when some tuple carries it. -/
theorem mergeResults_keys (rs : List RawResult) :
    ((mergeResults rs).map Prod.fst).Nodup ∧
      ∀ k : Finset Nat,
        (lookupA k (mergeResults rs)).isSome ↔ ∃ r ∈ rs, pairKey r = k := by
  constructor
  · exact nodupKeys_foldUpd _ _ _ rs (by simp)
  · intro k
    rw [lookupA_mergeResults]
    by_cases hemp : ((rs.filter fun r => decide (pairKey r = k)).isEmpty = true)
    · rw [if_pos hemp]
      simp only [Option.isSome_none, Bool.false_eq_true, false_iff]
      rintro ⟨r, hr, hk⟩
      have : r ∈ rs.filter fun r => decide (pairKey r = k) :=
        List.mem_filter.mpr ⟨hr, by simpa using hk⟩
      rw [List.isEmpty_iff.mp hemp] at this
      cases this
    · rw [if_neg hemp]
      simp only [Option.isSome_some, true_iff]
      have hne : (rs.filter fun r => decide (pairKey r = k)) ≠ [] := by
        intro h
        exact hemp (by simp [h])
      rcases List.exists_mem_of_ne_nil _ hne with ⟨r, hr⟩
      have h1 := List.mem_filter.mp hr
      exact ⟨r, h1.1, by simpa using h1.2⟩

/-! ## Lemmas: Idempotent Store -/

theorem findGroup_addResult (db : DB) (g : Nat) (r : StoreRec) (a b : Nat) :
    findGroup (addResult db g r) a b = findGroup db a b := rfl

theorem hasResult_createGroup (db : DB) (a b g : Nat) :
    hasResult (createGroup db a b) g = hasResult db g := rfl

theorem hasResult_addResult_self (db : DB) (g : Nat) (r : StoreRec) :
    hasResult (addResult db g r) g = true := by
  simp [hasResult, addResult, List.any_append, mkResult]

theorem hasResult_fresh (db : DB)
    (hfr : ∀ res ∈ db.results, res.alignment_group_id < db.nextGroupId) :
    hasResult db db.nextGroupId = false := by
  rw [hasResult, List.any_eq_false]
  intro res hres
  have := hfr res hres
  simp
  omega

theorem createGroup_groups (db : DB) (a b : Nat) :
    (createGroup db a b).groups = db.groups ++ [db.nextGroupId] := rfl

theorem matchCount_createGroup_ne (db : DB) (a b x y g' : Nat)
    (hg : g' ≠ db.nextGroupId) :
    matchCount (createGroup db a b) g' x y = matchCount db g' x y := by
  rw [matchCount, matchCount, createGroup]
  simp only [List.filter_append, List.length_append]
  have hnil : List.filter
      (fun row : GroupEntryRow => row.alignment_group_id == g' &&
        (row.subcluster_entry_id == x || row.subcluster_entry_id == y))
      [⟨db.nextGroupId, a⟩, ⟨db.nextGroupId, b⟩] = [] := by
    simp [Ne.symm hg]
  rw [hnil]
  rfl

theorem matchCount_createGroup_self (db : DB) (a b : Nat)
    (hfr : ∀ row ∈ db.groupEntries, row.alignment_group_id < db.nextGroupId) :
    matchCount (createGroup db a b) db.nextGroupId a b = 2 := by
  rw [matchCount, createGroup]
  simp only [List.filter_append, List.length_append]
  have hnil : List.filter
      (fun row : GroupEntryRow => row.alignment_group_id == db.nextGroupId &&
        (row.subcluster_entry_id == a || row.subcluster_entry_id == b))
      db.groupEntries = [] := by
    rw [List.filter_eq_nil_iff]
    intro row hrow
    have := hfr row hrow
    simp
    intro heq
    omega
  rw [hnil]
  simp

/-- With fresh ids, the group created for a pair is found (first) by a
renewed lookup for ids `a`, `b`: the old groups still fail the aggregate
and the new group passes it. -/
theorem findGroup_after_create (db : DB) (a b : Nat) (hfr : freshDB db)
    (hnone : findGroup db a b = none) :
    findGroup (createGroup db a b) a b = some db.nextGroupId := by
  obtain ⟨hrows, hgroups, _⟩ := hfr
  rw [findGroup, createGroup_groups, List.find?_append]
  have hold : List.find?
      (fun g => matchCount (createGroup db a b) g a b == 2) db.groups = none := by
    rw [List.find?_eq_none]
    intro g' hg'
    have hne : g' ≠ db.nextGroupId := by
      have := hgroups g' hg'
      omega
    rw [matchCount_createGroup_ne db a b a b g' hne]
    have := List.find?_eq_none.mp hnone g' hg'
    simpa using this
  have hnew : List.find?
      (fun g => matchCount (createGroup db a b) g a b == 2) [db.nextGroupId] =
        some db.nextGroupId := by
    have h2 := matchCount_createGroup_self db a b hrows
    simp [List.find?, h2]
  rw [hold, hnew]
  rfl

/-- The possible effects of one loop iteration on the results table. -/
theorem storeStepDB_results_cases (db : DB) (r : StoreRec) :
    (storeStepDB db r).1.results = db.results ∨
    ∃ g, hasResult db g = false ∧
      (storeStepDB db r).1.results = db.results ++ [mkResult g r] := by
  rw [storeStepDB]
  by_cases hc : (db.subclusterEntries.contains r.subcluster_entry_1_id
      && db.subclusterEntries.contains r.subcluster_entry_2_id) = true
  · rw [if_pos hc]
    cases hfind : findGroup db r.subcluster_entry_1_id r.subcluster_entry_2_id with
    | some g =>
        dsimp only
        by_cases hres : hasResult db g = true
        · rw [if_pos hres]
          exact Or.inl rfl
        · rw [if_neg hres]
          exact Or.inr ⟨g, Bool.not_eq_true _ ▸ hres, rfl⟩
    | none =>
        dsimp only
        rw [hasResult_createGroup]
        by_cases hres : hasResult db db.nextGroupId = true
        · rw [if_pos hres]
          exact Or.inl rfl
        · rw [if_neg hres]
          exact Or.inr ⟨db.nextGroupId, Bool.not_eq_true _ ▸ hres, rfl⟩
  · rw [if_neg hc]
    exact Or.inl rfl

/-- When the lookup finds a group, no group is created. -/
theorem storeStepDB_groups_of_found (db : DB) (r : StoreRec) (g : Nat)
    (h : findGroup db r.subcluster_entry_1_id r.subcluster_entry_2_id = some g) :
    (storeStepDB db r).1.groups = db.groups := by
  rw [storeStepDB]
  by_cases hc : (db.subclusterEntries.contains r.subcluster_entry_1_id
      && db.subclusterEntries.contains r.subcluster_entry_2_id) = true
  · rw [if_pos hc, h]
    dsimp only
    by_cases hres : hasResult db g = true
    · rw [if_pos hres]
    · rw [if_neg hres]
      rfl
  · rw [if_neg hc]

theorem atMostOne_append (db : DB) (g : Nat) (r : StoreRec)
    (h : atMostOneResult db) (hg : hasResult db g = false) :
    atMostOneResult (addResult db g r) := by
  intro g'
  show ((db.results ++ [mkResult g r]).filter fun res => res.alignment_group_id == g').length ≤ 1
  rw [List.filter_append]
  by_cases hgg : g' = g
  · subst hgg
    have hnil : (db.results.filter fun res => res.alignment_group_id == g') = [] := by
      rw [List.filter_eq_nil_iff]
      intro res hres
      have := List.any_eq_false.mp hg res hres
      simpa using this
    rw [hnil]
    simp [mkResult]
  · have hnil : ([mkResult g r].filter fun res => res.alignment_group_id == g') = [] := by
      simp [mkResult, Ne.symm hgg]
    rw [hnil]
    simpa using h g'

/-- One loop iteration preserves the at-most-one-result invariant. -/
theorem atMostOne_storeStepDB (db : DB) (r : StoreRec)
    (h : atMostOneResult db) : atMostOneResult (storeStepDB db r).1 := by
  rcases storeStepDB_results_cases db r with hcase | ⟨g, hg, hcase⟩
  · intro g'
    rw [hcase]
    exact h g'
  · intro g'
    rw [hcase]
    exact atMostOne_append db g r h hg g'

theorem storeEntry_fst (db : DB) (recs : List StoreRec) :
    (storeEntry db recs).1 = storeFold db recs := by
  rw [storeEntry, storeFold]
  suffices h : ∀ (recs : List StoreRec) (db : DB) (n : Nat),
      (recs.foldl storeStep (db, n)).1 = recs.foldl (fun d r => (storeStepDB d r).1) db by
    exact h recs db 0
  intro recs
  induction recs with
  | nil => intro db n; rfl
  | cons r rest ih =>
      intro db n
      rw [List.foldl_cons, List.foldl_cons]
      exact ih _ _

theorem atMostOne_storeFold (db : DB) (recs : List StoreRec)
    (h : atMostOneResult db) : atMostOneResult (storeFold db recs) := by
  induction recs generalizing db with
  | nil => exact h
  | cons r rest ih => exact ih _ (atMostOne_storeStepDB db r h)

theorem atMostOne_storeRuns (db : DB) (batches : List (List StoreRec))
    (h : atMostOneResult db) : atMostOneResult (storeRuns db batches) := by
  induction batches generalizing db with
  | nil => exact h
  | cons b rest ih =>
      rw [storeRuns, List.foldl_cons]
      exact ih _ (by rw [storeEntry_fst]; exact atMostOne_storeFold db b h)

theorem addResult_subclusterEntries (db : DB) (g : Nat) (r : StoreRec) :
    (addResult db g r).subclusterEntries = db.subclusterEntries := rfl

theorem addResult_groups (db : DB) (g : Nat) (r : StoreRec) :
    (addResult db g r).groups = db.groups := rfl

theorem addResult_groupEntries (db : DB) (g : Nat) (r : StoreRec) :
    (addResult db g r).groupEntries = db.groupEntries := rfl

theorem createGroup_subclusterEntries (db : DB) (a b : Nat) :
    (createGroup db a b).subclusterEntries = db.subclusterEntries := rfl

theorem createGroup_groupEntries (db : DB) (a b : Nat) :
    (createGroup db a b).groupEntries =
      db.groupEntries ++ [⟨db.nextGroupId, a⟩, ⟨db.nextGroupId, b⟩] := rfl

/-- Re-storing a record with the same two entry ids right after a first
store of that pair is a no-op: the first pass left the pair's first-matched
group with a result, so the second pass skips. -/
theorem storeStepDB_rerun (db : DB) (r r' : StoreRec) (hfr : freshDB db)
    (h1 : r'.subcluster_entry_1_id = r.subcluster_entry_1_id)
    (h2 : r'.subcluster_entry_2_id = r.subcluster_entry_2_id) :
    storeStepDB (storeStepDB db r).1 r' = ((storeStepDB db r).1, false) := by
  by_cases hc : (db.subclusterEntries.contains r.subcluster_entry_1_id
      && db.subclusterEntries.contains r.subcluster_entry_2_id) = true
  · cases hfind : findGroup db r.subcluster_entry_1_id r.subcluster_entry_2_id with
    | some g =>
        by_cases hres : hasResult db g = true
        · have hstep : storeStepDB db r = (db, false) := by
            rw [storeStepDB, if_pos hc, hfind]
            dsimp only
            rw [if_pos hres]
          rw [hstep]
          dsimp only
          rw [storeStepDB, h1, h2, if_pos hc, hfind]
          dsimp only
          rw [if_pos hres]
        · have hstep : storeStepDB db r = (addResult db g r, true) := by
            rw [storeStepDB, if_pos hc, hfind]
            dsimp only
            rw [if_neg hres]
          rw [hstep]
          dsimp only
          rw [storeStepDB, h1, h2, addResult_subclusterEntries, if_pos hc,
            findGroup_addResult, hfind]
          dsimp only
          rw [if_pos (hasResult_addResult_self db g r)]
    | none =>
        have hres2 : hasResult db db.nextGroupId = false := hasResult_fresh db hfr.2.2
        have hstep : storeStepDB db r =
            (addResult (createGroup db r.subcluster_entry_1_id r.subcluster_entry_2_id)
              db.nextGroupId r, true) := by
          rw [storeStepDB, if_pos hc, hfind]
          dsimp only
          rw [hasResult_createGroup, if_neg (by simp [hres2])]
        rw [hstep]
        dsimp only
        rw [storeStepDB, h1, h2, addResult_subclusterEntries, createGroup_subclusterEntries,
          if_pos hc, findGroup_addResult,
          findGroup_after_create db r.subcluster_entry_1_id r.subcluster_entry_2_id hfr hfind]
        dsimp only
        rw [if_pos (hasResult_addResult_self _ db.nextGroupId r)]
  · have hstep : storeStepDB db r = (db, false) := by
      rw [storeStepDB, if_neg hc]
    rw [hstep]
    dsimp only
    rw [storeStepDB, h1, h2, if_neg hc]

/-! ### Preservation of the group-uniqueness invariants -/

theorem rowEntries_append (rows new : List GroupEntryRow) (g : Nat) :
    rowEntries (rows ++ new) g = rowEntries rows g ++ rowEntries new g := by
  simp [rowEntries, List.filter_append]

theorem rowEntries_nil_of (rows : List GroupEntryRow) (g : Nat)
    (h : ∀ row ∈ rows, row.alignment_group_id ≠ g) : rowEntries rows g = [] := by
  rw [rowEntries]
  have hnil : (rows.filter fun row => row.alignment_group_id == g) = [] := by
    rw [List.filter_eq_nil_iff]
    intro row hrow
    simpa using h row hrow
  rw [hnil]
  rfl

theorem rowEntries_pair_self (g a b : Nat) :
    rowEntries [⟨g, a⟩, ⟨g, b⟩] g = [a, b] := by
  simp [rowEntries]

theorem rowEntries_pair_ne (g' g a b : Nat) (h : g' ≠ g) :
    rowEntries [⟨g, a⟩, ⟨g, b⟩] g' = [] := by
  simp [rowEntries, Ne.symm h]

theorem entrySetRows_createGroup_ne (db : DB) (a b g' : Nat) (h : g' ≠ db.nextGroupId) :
    entrySetRows (createGroup db a b).groupEntries g' = entrySetRows db.groupEntries g' := by
  rw [entrySetRows, entrySetRows, createGroup_groupEntries, rowEntries_append,
    rowEntries_pair_ne g' db.nextGroupId a b h, List.append_nil]

theorem entrySetRows_createGroup_self (db : DB) (a b : Nat)
    (hfr : ∀ row ∈ db.groupEntries, row.alignment_group_id < db.nextGroupId) :
    entrySetRows (createGroup db a b).groupEntries db.nextGroupId = {a, b} := by
  rw [entrySetRows, createGroup_groupEntries, rowEntries_append,
    rowEntries_nil_of db.groupEntries db.nextGroupId
      (fun row hrow => by have := hfr row hrow; omega),
    List.nil_append, rowEntries_pair_self]
  simp

theorem matchCount_eq_rowEntries (db : DB) (g a b : Nat) :
    matchCount db g a b =
      ((rowEntries db.groupEntries g).filter fun e => e == a || e == b).length := by
  rw [matchCount, rowEntries, List.filter_map, List.length_map, List.filter_filter]
  congr 1
  apply List.filter_congr
  intro row _
  simp [Bool.and_comm]

/-- A group whose membership rows are duplicate-free and whose entry set is
exactly `{a, b}` passes the lookup aggregate for the pair `(a, b)`. -/
theorem matchCount_of_exact_pair (db : DB) (g a b : Nat)
    (hnd : (rowEntries db.groupEntries g).Nodup)
    (hset : entrySetRows db.groupEntries g = {a, b}) (hab : a ≠ b) :
    matchCount db g a b = 2 := by
  rw [matchCount_eq_rowEntries]
  have hall : ((rowEntries db.groupEntries g).filter fun e => e == a || e == b) =
      rowEntries db.groupEntries g := by
    apply List.filter_eq_self.mpr
    intro e he
    have hmem : e ∈ entrySetRows db.groupEntries g := by
      rw [entrySetRows]
      exact List.mem_toFinset.mpr he
    rw [hset] at hmem
    rcases Finset.mem_insert.mp hmem with h | h
    · simp [h]
    · simp [Finset.mem_singleton.mp h]
  rw [hall]
  have hcard := List.toFinset_card_of_nodup hnd
  rw [show (rowEntries db.groupEntries g).toFinset = entrySetRows db.groupEntries g from rfl,
    hset, Finset.card_pair hab] at hcard
  omega

/-- The four possible outcomes of one `store_entry` loop iteration. -/
theorem storeStepDB_state_cases (db : DB) (r : StoreRec) :
    (storeStepDB db r).1 = db ∨
    (∃ g, findGroup db r.subcluster_entry_1_id r.subcluster_entry_2_id = some g ∧
      hasResult db g = false ∧ (storeStepDB db r).1 = addResult db g r) ∨
    (findGroup db r.subcluster_entry_1_id r.subcluster_entry_2_id = none ∧
      hasResult db db.nextGroupId = false ∧
      (storeStepDB db r).1 =
        addResult (createGroup db r.subcluster_entry_1_id r.subcluster_entry_2_id)
          db.nextGroupId r) ∨
    (findGroup db r.subcluster_entry_1_id r.subcluster_entry_2_id = none ∧
      hasResult db db.nextGroupId = true ∧
      (storeStepDB db r).1 =
        createGroup db r.subcluster_entry_1_id r.subcluster_entry_2_id) := by
  rw [storeStepDB]
  by_cases hc : (db.subclusterEntries.contains r.subcluster_entry_1_id
      && db.subclusterEntries.contains r.subcluster_entry_2_id) = true
  · rw [if_pos hc]
    cases hfind : findGroup db r.subcluster_entry_1_id r.subcluster_entry_2_id with
    | some g =>
        dsimp only
        by_cases hres : hasResult db g = true
        · rw [if_pos hres]
          exact Or.inl rfl
        · rw [if_neg hres]
          exact Or.inr (Or.inl ⟨g, rfl, Bool.not_eq_true _ ▸ hres, rfl⟩)
    | none =>
        dsimp only
        rw [hasResult_createGroup]
        by_cases hres : hasResult db db.nextGroupId = true
        · rw [if_pos hres]
          exact Or.inr (Or.inr (Or.inr ⟨rfl, hres, rfl⟩))
        · rw [if_neg hres]
          exact Or.inr (Or.inr (Or.inl ⟨rfl, Bool.not_eq_true _ ▸ hres, rfl⟩))
  · rw [if_neg hc]
    exact Or.inl rfl

theorem storeInv_createGroup (db : DB) (a b : Nat) (hfr : freshDB db) (hnd : noDupEdges db)
    (hpu : pairUnique db) (hab : a ≠ b) (hfind : findGroup db a b = none) :
    freshDB (createGroup db a b) ∧ noDupEdges (createGroup db a b) ∧
      pairUnique (createGroup db a b) := by
  obtain ⟨hrows, hgroups, hres⟩ := hfr
  refine ⟨⟨?_, ?_, ?_⟩, ?_, ?_⟩
  · intro row hrow
    rw [createGroup_groupEntries] at hrow
    rcases List.mem_append.mp hrow with h | h
    · have := hrows row h
      show row.alignment_group_id < db.nextGroupId + 1
      omega
    · simp only [List.mem_cons, List.mem_singleton, List.not_mem_nil, or_false] at h
      rcases h with h | h <;>
        (subst h; show db.nextGroupId < db.nextGroupId + 1; omega)
  · intro g hg
    rw [createGroup_groups] at hg
    rcases List.mem_append.mp hg with h | h
    · have := hgroups g h
      show g < db.nextGroupId + 1
      omega
    · have hgn : g = db.nextGroupId := by simpa using h
      subst hgn
      show db.nextGroupId < db.nextGroupId + 1
      omega
  · intro res hr
    have := hres res hr
    show res.alignment_group_id < db.nextGroupId + 1
    omega
  · intro g'
    by_cases h : g' = db.nextGroupId
    · subst h
      rw [createGroup_groupEntries, rowEntries_append,
        rowEntries_nil_of db.groupEntries db.nextGroupId
          (fun row hrow => by have := hrows row hrow; omega),
        List.nil_append, rowEntries_pair_self]
      simp [hab]
    · rw [createGroup_groupEntries, rowEntries_append,
        rowEntries_pair_ne g' db.nextGroupId a b h, List.append_nil]
      exact hnd g'
  · intro g₁ hg₁ g₂ hg₂ hcard heq
    rw [createGroup_groups] at hg₁ hg₂
    have hself := entrySetRows_createGroup_self db a b hrows
    rcases List.mem_append.mp hg₁ with hg₁ | hg₁ <;>
      rcases List.mem_append.mp hg₂ with hg₂ | hg₂
    · have hne₁ : g₁ ≠ db.nextGroupId := by have := hgroups g₁ hg₁; omega
      have hne₂ : g₂ ≠ db.nextGroupId := by have := hgroups g₂ hg₂; omega
      rw [entrySetRows_createGroup_ne db a b g₁ hne₁] at hcard heq
      rw [entrySetRows_createGroup_ne db a b g₂ hne₂] at heq
      exact hpu g₁ hg₁ g₂ hg₂ hcard heq
    · have hne₁ : g₁ ≠ db.nextGroupId := by have := hgroups g₁ hg₁; omega
      have hg₂' : g₂ = db.nextGroupId := by simpa using hg₂
      subst hg₂'
      rw [entrySetRows_createGroup_ne db a b g₁ hne₁] at hcard heq
      rw [hself] at heq
      have h2 := matchCount_of_exact_pair db g₁ a b (hnd g₁) heq hab
      have := List.find?_eq_none.mp hfind g₁ hg₁
      rw [h2] at this
      simp at this
    · have hg₁' : g₁ = db.nextGroupId := by simpa using hg₁
      subst hg₁'
      have hne₂ : g₂ ≠ db.nextGroupId := by have := hgroups g₂ hg₂; omega
      rw [hself] at heq
      rw [entrySetRows_createGroup_ne db a b g₂ hne₂] at heq
      have h2 := matchCount_of_exact_pair db g₂ a b (hnd g₂) heq.symm hab
      have := List.find?_eq_none.mp hfind g₂ hg₂
      rw [h2] at this
      simp at this
    · have hg₁' : g₁ = db.nextGroupId := by simpa using hg₁
      have hg₂' : g₂ = db.nextGroupId := by simpa using hg₂
      rw [hg₁', hg₂']

/-- One loop iteration preserves freshness, edge-distinctness and
pair-uniqueness (for a record with two distinct entry ids). -/
theorem storeInv_storeStepDB (db : DB) (r : StoreRec)
    (hfr : freshDB db) (hnd : noDupEdges db) (hpu : pairUnique db)
    (hab : r.subcluster_entry_1_id ≠ r.subcluster_entry_2_id) :
    freshDB (storeStepDB db r).1 ∧ noDupEdges (storeStepDB db r).1 ∧
      pairUnique (storeStepDB db r).1 := by
  rcases storeStepDB_state_cases db r with hst | ⟨g, hfind, hres, hst⟩ |
    ⟨hfind, hres, hst⟩ | ⟨hfind, hres, hst⟩
  · rw [hst]
    exact ⟨hfr, hnd, hpu⟩
  · rw [hst]
    refine ⟨⟨hfr.1, hfr.2.1, ?_⟩, hnd, hpu⟩
    intro res hrmem
    rcases List.mem_append.mp hrmem with h | h
    · exact hfr.2.2 res h
    · have hgmem := List.mem_of_find?_eq_some hfind
      have := hfr.2.1 g hgmem
      have hres' : res = mkResult g r := by simpa using h
      subst hres'
      simpa [mkResult]
  · rw [hst]
    obtain ⟨hfr', hnd', hpu'⟩ := storeInv_createGroup db
      r.subcluster_entry_1_id r.subcluster_entry_2_id hfr hnd hpu hab hfind
    refine ⟨⟨hfr'.1, hfr'.2.1, ?_⟩, hnd', hpu'⟩
    intro res hrmem
    rcases List.mem_append.mp hrmem with h | h
    · exact hfr'.2.2 res h
    · have hres' : res = mkResult db.nextGroupId r := by simpa using h
      subst hres'
      show db.nextGroupId < db.nextGroupId + 1
      omega
  · rw [hst]
    exact storeInv_createGroup db r.subcluster_entry_1_id r.subcluster_entry_2_id
      hfr hnd hpu hab hfind

theorem storeInv_storeFold (db : DB) (recs : List StoreRec)
    (hfr : freshDB db) (hnd : noDupEdges db) (hpu : pairUnique db)
    (hrecs : ∀ r ∈ recs, r.subcluster_entry_1_id ≠ r.subcluster_entry_2_id) :
    freshDB (storeFold db recs) ∧ noDupEdges (storeFold db recs) ∧
      pairUnique (storeFold db recs) := by
  induction recs generalizing db with
  | nil => exact ⟨hfr, hnd, hpu⟩
  | cons r rest ih =>
      obtain ⟨h1, h2, h3⟩ := storeInv_storeStepDB db r hfr hnd hpu
        (hrecs r (List.mem_cons_self r rest))
      exact ih _ h1 h2 h3 (fun r' hr' => hrecs r' (List.mem_cons_of_mem r hr'))

theorem storeInv_storeRuns (db : DB) (batches : List (List StoreRec))
    (hfr : freshDB db) (hnd : noDupEdges db) (hpu : pairUnique db)
    (hrecs : ∀ b ∈ batches, ∀ r ∈ b,
      r.subcluster_entry_1_id ≠ r.subcluster_entry_2_id) :
    freshDB (storeRuns db batches) ∧ noDupEdges (storeRuns db batches) ∧
      pairUnique (storeRuns db batches) := by
  induction batches generalizing db with
  | nil => exact ⟨hfr, hnd, hpu⟩
  | cons b rest ih =>
      rw [storeRuns, List.foldl_cons]
      have hb := storeInv_storeFold db b hfr hnd hpu
        (fun r hr => hrecs b (List.mem_cons_self b rest) r hr)
      rw [← storeEntry_fst] at hb
      exact ih _ hb.1 hb.2.1 hb.2.2
        (fun b' hb' r hr => hrecs b' (List.mem_cons_of_mem b hb') r hr)

/-! ### The instrumented store loop agrees with the pure loop on success -/

theorem storeFold_cons (db : DB) (r : StoreRec) (rest : List StoreRec) :
    storeFold db (r :: rest) = storeFold (storeStepDB db r).1 rest := rfl

theorem foldl_storeStep_cons (db : DB) (ins : Nat) (r : StoreRec) (rest : List StoreRec) :
    ((r :: rest).foldl storeStep (db, ins)).2 =
      (rest.foldl storeStep (storeStep (db, ins) r)).2 := rfl

theorem storeLoopF_ok_agree (failAt : Option Nat) (recs : List StoreRec) :
    ∀ (db : DB) (ins c : Nat) (out : DB × Nat × Nat),
      storeLoopF failAt recs db ins c = .ok out →
      out.1 = storeFold db recs ∧ out.2.1 = (recs.foldl storeStep (db, ins)).2 := by
  induction recs with
  | nil =>
      intro db ins c out h
      rw [storeLoopF] at h
      injection h with h
      subst h
      exact ⟨rfl, rfl⟩
  | cons r rest ih =>
      intro db ins c out h
      rw [storeLoopF] at h
      cases ht1 : opTick failAt c with
      | error e => rw [ht1] at h; cases h
      | ok c1 =>
      rw [ht1] at h
      simp only [bind, Except.bind] at h
      cases ht2 : opTick failAt c1 with
      | error e => rw [ht2] at h; cases h
      | ok c2 =>
      rw [ht2] at h
      simp only [bind, Except.bind] at h
      by_cases hc : (db.subclusterEntries.contains r.subcluster_entry_1_id
          && db.subclusterEntries.contains r.subcluster_entry_2_id) = true
      · rw [if_pos hc] at h
        cases ht3 : opTick failAt c2 with
        | error e => rw [ht3] at h; cases h
        | ok c3 =>
        rw [ht3] at h
        simp only [bind, Except.bind] at h
        cases hfind : findGroup db r.subcluster_entry_1_id r.subcluster_entry_2_id with
        | some g =>
            rw [hfind] at h
            dsimp only at h
            cases ht4 : opTick failAt c3 with
            | error e => rw [ht4] at h; cases h
            | ok c4 =>
            rw [ht4] at h
            simp only [bind, Except.bind] at h
            by_cases hres : hasResult db g = true
            · rw [if_pos hres] at h
              have hsdb : storeStepDB db r = (db, false) := by
                rw [storeStepDB, if_pos hc, hfind]
                dsimp only
                rw [if_pos hres]
              have hstep : storeStep (db, ins) r = (db, ins) := by
                simp only [storeStep, hsdb]; rfl
              have hrec := ih db ins c4 out h
              refine ⟨?_, ?_⟩
              · rw [hrec.1, storeFold_cons, hsdb]
              · rw [hrec.2, foldl_storeStep_cons, hstep]
            · rw [if_neg hres] at h
              cases ht5 : opTick failAt c4 with
              | error e => rw [ht5] at h; cases h
              | ok c5 =>
              rw [ht5] at h
              simp only [bind, Except.bind] at h
              have hsdb : storeStepDB db r = (addResult db g r, true) := by
                rw [storeStepDB, if_pos hc, hfind]
                dsimp only
                rw [if_neg hres]
              have hstep : storeStep (db, ins) r = (addResult db g r, ins + 1) := by
                simp only [storeStep, hsdb]; rfl
              have hrec := ih (addResult db g r) (ins + 1) c5 out (by exact h)
              refine ⟨?_, ?_⟩
              · rw [hrec.1, storeFold_cons, hsdb]
              · rw [hrec.2, foldl_storeStep_cons, hstep]
        | none =>
            rw [hfind] at h
            dsimp only at h
            cases ht4 : opTick failAt c3 with
            | error e => rw [ht4] at h; cases h
            | ok c4 =>
            rw [ht4] at h
            simp only [bind, Except.bind] at h
            cases ht5 : opTick failAt c4 with
            | error e => rw [ht5] at h; cases h
            | ok c5 =>
            rw [ht5] at h
            simp only [bind, Except.bind] at h
            cases ht6 : opTick failAt c5 with
            | error e => rw [ht6] at h; cases h
            | ok c6 =>
            rw [ht6] at h
            simp only [bind, Except.bind] at h
            cases ht7 : opTick failAt c6 with
            | error e => rw [ht7] at h; cases h
            | ok c7 =>
            rw [ht7] at h
            simp only [bind, Except.bind] at h
            cases ht8 : opTick failAt c7 with
            | error e => rw [ht8] at h; cases h
            | ok c8 =>
            rw [ht8] at h
            simp only [bind, Except.bind] at h
            by_cases hres : hasResult
                (createGroup db r.subcluster_entry_1_id r.subcluster_entry_2_id)
                db.nextGroupId = true
            · rw [if_pos hres] at h
              have hsdb : storeStepDB db r =
                  (createGroup db r.subcluster_entry_1_id r.subcluster_entry_2_id,
                    false) := by
                rw [storeStepDB, if_pos hc, hfind]
                dsimp only
                rw [if_pos hres]
              have hstep : storeStep (db, ins) r =
                  (createGroup db r.subcluster_entry_1_id r.subcluster_entry_2_id,
                    ins) := by
                simp only [storeStep, hsdb]; rfl
              have hrec := ih _ ins c8 out h
              refine ⟨?_, ?_⟩
              · rw [hrec.1, storeFold_cons, hsdb]
              · rw [hrec.2, foldl_storeStep_cons, hstep]
            · rw [if_neg hres] at h
              cases ht9 : opTick failAt c8 with
              | error e => rw [ht9] at h; cases h
              | ok c9 =>
              rw [ht9] at h
              simp only [bind, Except.bind] at h
              have hsdb : storeStepDB db r =
                  (addResult (createGroup db r.subcluster_entry_1_id
                    r.subcluster_entry_2_id) db.nextGroupId r, true) := by
                rw [storeStepDB, if_pos hc, hfind]
                dsimp only
                rw [if_neg hres]
              have hstep : storeStep (db, ins) r =
                  (addResult (createGroup db r.subcluster_entry_1_id
                    r.subcluster_entry_2_id) db.nextGroupId r, ins + 1) := by
                simp only [storeStep, hsdb]; rfl
              have hrec := ih _ (ins + 1) c9 out h
              refine ⟨?_, ?_⟩
              · rw [hrec.1, storeFold_cons, hsdb]
              · rw [hrec.2, foldl_storeStep_cons, hstep]
      · rw [if_neg hc] at h
        have hsdb : storeStepDB db r = (db, false) := by
          rw [storeStepDB, if_neg hc]
        have hstep : storeStep (db, ins) r = (db, ins) := by
          simp only [storeStep, hsdb]; rfl
        have hrec := ih db ins c2 out h
        refine ⟨?_, ?_⟩
        · rw [hrec.1, storeFold_cons, hsdb]
        · rw [hrec.2, foldl_storeStep_cons, hstep]

/-! ## Lemmas: Pair-Alignment Executor (`process`) -/

theorem mem_pairsL {α : Type} {p : α × α} :
    ∀ {l : List α}, p ∈ pairsL l → p.1 ∈ l ∧ p.2 ∈ l := by
  intro l
  induction l with
  | nil => intro hp; cases hp
  | cons x t ih =>
      intro hp
      rw [pairsL] at hp
      rcases List.mem_append.mp hp with h | h
      · rcases List.mem_map.mp h with ⟨y, hy, hxy⟩
        subst hxy
        exact ⟨List.mem_cons_self x t, List.mem_cons_of_mem x hy⟩
      · have := ih h
        exact ⟨List.mem_cons_of_mem x this.1, List.mem_cons_of_mem x this.2⟩

/-- `combinations(l, 2)` yields each unordered id pair at most once: two
emitted pairs with the same id set are the same pair, provided the ids in
the input list are pairwise distinct. -/
theorem pairsL_key_inj {α : Type} (f : α → Nat) :
    ∀ {l : List α}, ((l.map f).Nodup) →
      ∀ {p q : α × α}, p ∈ pairsL l → q ∈ pairsL l →
      ({f p.1, f p.2} : Finset Nat) = {f q.1, f q.2} → p = q := by
  intro l
  induction l with
  | nil =>
      intro _ p q hp
      cases hp
  | cons x t ih =>
      intro hnd p q hp hq hk
      rw [List.map_cons, List.nodup_cons] at hnd
      have hinj := List.inj_on_of_nodup_map hnd.2
      rw [pairsL] at hp hq
      rcases List.mem_append.mp hp with hp' | hp' <;>
        rcases List.mem_append.mp hq with hq' | hq'
      · rcases List.mem_map.mp hp' with ⟨y, hy, hxy⟩
        rcases List.mem_map.mp hq' with ⟨z, hz, hxz⟩
        subst hxy
        subst hxz
        have hyz : f y = f z := by
          have hmem := Finset.ext_iff.mp hk (f y)
          have hy' : f y = f x ∨ f y = f z := by
            simpa using hmem.mp (by simp)
          rcases hy' with hy' | hy'
          · exfalso
            exact hnd.1 (hy' ▸ List.mem_map_of_mem f hy)
          · exact hy'
        rw [hinj hy hz hyz]
      · exfalso
        rcases List.mem_map.mp hp' with ⟨y, hy, hxy⟩
        subst hxy
        have hq1 := (mem_pairsL hq').1
        have hq2 := (mem_pairsL hq').2
        have hmem := Finset.ext_iff.mp hk (f x)
        have hx' : f x = f q.1 ∨ f x = f q.2 := by
          simpa using hmem.mp (by simp)
        rcases hx' with hx' | hx'
        · exact hnd.1 (hx' ▸ List.mem_map_of_mem f hq1)
        · exact hnd.1 (hx' ▸ List.mem_map_of_mem f hq2)
      · exfalso
        rcases List.mem_map.mp hq' with ⟨y, hy, hxy⟩
        subst hxy
        have hp1 := (mem_pairsL hp').1
        have hp2 := (mem_pairsL hp').2
        have hmem := Finset.ext_iff.mp hk.symm (f x)
        have hx' : f x = f p.1 ∨ f x = f p.2 := by
          simpa using hmem.mp (by simp)
        rcases hx' with hx' | hx'
        · exact hnd.1 (hx' ▸ List.mem_map_of_mem f hp1)
        · exact hnd.1 (hx' ▸ List.mem_map_of_mem f hp2)
      · exact ih hnd.2 hp' hq' hk

theorem pairKey_retag (r : RawResult) (t : Nat) :
    pairKey { r with alignment_type_id := t } = pairKey r := rfl

/-- The type loop of `process` for one pair, when no algorithm raises:
every configured type is invoked, the falsy outcomes are dropped, and each
kept result dict is the capability's dict tagged with the type id. -/
theorem collectTypes_ok (oracle : PairTask → AlignOutcome) (cid : Nat)
    (s1 s2 : SubEntryDict) (types : List Nat)
    (hnr : ∀ t ∈ types, oracle (mkTask cid t s1 s2) ≠ .raiseExn) :
    ∃ rs, collectTypes oracle cid s1 s2 types = .ok (rs, types.length) ∧
      ∀ r', r' ∈ rs ↔ ∃ t ∈ types, ∃ r, oracle (mkTask cid t s1 s2) = .ok r ∧
        r' = { r with alignment_type_id := t } := by
  induction types with
  | nil => exact ⟨[], rfl, by simp⟩
  | cons t ts ih =>
      obtain ⟨rs, hok, hmem⟩ := ih (fun t' ht' => hnr t' (List.mem_cons_of_mem t ht'))
      cases hora : oracle (mkTask cid t s1 s2) with
      | raiseExn => exact absurd hora (hnr t (List.mem_cons_self t ts))
      | noResult =>
          refine ⟨rs, ?_, ?_⟩
          · rw [collectTypes, hora]
            dsimp only
            rw [hok]
            rfl
          · intro r'
            rw [hmem r']
            constructor
            · rintro ⟨t', ht', r, hr, hr'⟩
              exact ⟨t', List.mem_cons_of_mem t ht', r, hr, hr'⟩
            · rintro ⟨t', ht', r, hr, hr'⟩
              rcases List.mem_cons.mp ht' with h | h
              · subst h
                rw [hora] at hr
                cases hr
              · exact ⟨t', h, r, hr, hr'⟩
      | ok r0 =>
          refine ⟨{ r0 with alignment_type_id := t } :: rs, ?_, ?_⟩
          · rw [collectTypes, hora]
            dsimp only
            rw [hok]
            rfl
          · intro r'
            rw [List.mem_cons, hmem r']
            constructor
            · rintro (h | ⟨t', ht', r, hr, hr'⟩)
              · exact ⟨t, List.mem_cons_self t ts, r0, hora, h⟩
              · exact ⟨t', List.mem_cons_of_mem t ht', r, hr, hr'⟩
            · rintro ⟨t', ht', r, hr, hr'⟩
              rcases List.mem_cons.mp ht' with h | h
              · subst h
                rw [hora] at hr
                injection hr with hr
                subst hr
                exact Or.inl hr'
              · exact Or.inr ⟨t', h, r, hr, hr'⟩

/-- The pair loop of `process`, when no invocation raises: all
`C(n,2) x types` invocations are made and the kept results are
characterised pointwise. -/
theorem collectGo_ok (oracle : PairTask → AlignOutcome) (cid : Nat) (types : List Nat)
    (prs : List (SubEntryDict × SubEntryDict))
    (hnr : ∀ pr ∈ prs, ∀ t ∈ types, oracle (mkTask cid t pr.1 pr.2) ≠ .raiseExn) :
    ∃ rs, collectGo oracle cid types prs = .ok (rs, prs.length * types.length) ∧
      ∀ r', r' ∈ rs ↔ ∃ pr ∈ prs, ∃ t ∈ types, ∃ r,
        oracle (mkTask cid t pr.1 pr.2) = .ok r ∧
        r' = { r with alignment_type_id := t } := by
  induction prs with
  | nil => exact ⟨[], by rw [collectGo]; simp, by simp⟩
  | cons pr rest ih =>
      obtain ⟨s1, s2⟩ := pr
      obtain ⟨rs1, hok1, hmem1⟩ := collectTypes_ok oracle cid s1 s2 types
        (fun t ht => hnr (s1, s2) (List.mem_cons_self _ rest) t ht)
      obtain ⟨rs2, hok2, hmem2⟩ := ih
        (fun pr' hpr' t ht => hnr pr' (List.mem_cons_of_mem _ hpr') t ht)
      refine ⟨rs1 ++ rs2, ?_, ?_⟩
      · rw [collectGo, hok1]
        dsimp only
        rw [hok2]
        dsimp only
        have harith : types.length + rest.length * types.length =
            (rest.length + 1) * types.length := by
          rw [Nat.succ_mul]
          omega
        rw [List.length_cons, harith]
      · intro r'
        rw [List.mem_append, hmem1 r', hmem2 r']
        constructor
        · rintro (⟨t, ht, r, hr, hr'⟩ | ⟨pr', hpr', t, ht, r, hr, hr'⟩)
          · exact ⟨(s1, s2), List.mem_cons_self _ rest, t, ht, r, hr, hr'⟩
          · exact ⟨pr', List.mem_cons_of_mem _ hpr', t, ht, r, hr, hr'⟩
        · rintro ⟨pr', hpr', t, ht, r, hr, hr'⟩
          rcases List.mem_cons.mp hpr' with h | h
          · subst h
            exact Or.inl ⟨t, ht, r, hr, hr'⟩
          · exact Or.inr ⟨pr', h, t, ht, r, hr, hr'⟩

/-! ## Claim theorems -/

/-- C1: the claim says the store's lookup reuses an existing AlignmentGroup
only if its entry membership is exactly `{entry-1-id, entry-2-id}`, and that
a group with more than two member entries is never matched.  The code
violates this: the lookup filters the membership rows to the two ids before
the `HAVING count == 2` aggregate, so a group with members `{1, 2, 3}` is
matched and reused when the record's pair is `(1, 2)` — evaluated here at
that failing input: the lookup returns group 0, whose membership has three
entries, no new group is created, and the record's result is attached to
the malformed group. -/
theorem c1_lookup_reuses_superset_group :
    findGroup dbSuperset 1 2 = some 0 ∧
    (entrySetRows dbSuperset.groupEntries 0).card = 3 ∧
    entrySetRows dbSuperset.groupEntries 0 ≠ ({1, 2} : Finset Nat) ∧
    (storeEntry dbSuperset [recPair12]).1.groups = [0] ∧
    (storeEntry dbSuperset [recPair12]).1.results = [mkResult 0 recPair12] := by
  refine ⟨by decide, by decide, by decide, by decide, by decide⟩

/-- C2: for every AlignmentGroup, after any number of `store_entry`
invocations, at most one AlignmentResult exists; storing the same merged
record twice (the second time even with different metric values) leaves the
state unchanged and performs no insertion; and in the clean case the first
store leaves exactly one persisted result for the created group. -/
theorem c2_at_most_one_result_and_rerun_noop
    (db : DB) (batches : List (List StoreRec)) (r r' : StoreRec) :
    (atMostOneResult db → atMostOneResult (storeRuns db batches)) ∧
    (freshDB db →
      r'.subcluster_entry_1_id = r.subcluster_entry_1_id →
      r'.subcluster_entry_2_id = r.subcluster_entry_2_id →
      storeEntry (storeEntry db [r]).1 [r'] = ((storeEntry db [r]).1, 0)) ∧
    (freshDB db →
      (db.subclusterEntries.contains r.subcluster_entry_1_id &&
        db.subclusterEntries.contains r.subcluster_entry_2_id) = true →
      findGroup db r.subcluster_entry_1_id r.subcluster_entry_2_id = none →
      ((storeEntry db [r]).1.results.filter
        fun res => res.alignment_group_id == db.nextGroupId).length = 1) := by
  refine ⟨fun h => atMostOne_storeRuns db batches h, fun hfr h1 h2 => ?_, fun hfr hc hfind => ?_⟩
  · have hrerun := storeStepDB_rerun db r r' hfr h1 h2
    show storeEntry (storeStepDB db r).1 [r'] = ((storeStepDB db r).1, 0)
    rw [storeEntry, List.foldl_cons, List.foldl_nil, storeStep, hrerun]
    rfl
  · have hres2 : hasResult db db.nextGroupId = false := hasResult_fresh db hfr.2.2
    have hsdb : storeStepDB db r =
        (addResult (createGroup db r.subcluster_entry_1_id r.subcluster_entry_2_id)
          db.nextGroupId r, true) := by
      rw [storeStepDB, if_pos hc, hfind]
      dsimp only
      rw [hasResult_createGroup, if_neg (by simp [hres2])]
    have hX : (storeEntry db [r]).1 =
        addResult (createGroup db r.subcluster_entry_1_id r.subcluster_entry_2_id)
          db.nextGroupId r := by
      show (storeStepDB db r).1 = _
      rw [hsdb]
    rw [hX]
    show ((db.results ++ [mkResult db.nextGroupId r]).filter
      fun res => res.alignment_group_id == db.nextGroupId).length = 1
    rw [List.filter_append]
    have hnil : (db.results.filter
        fun res => res.alignment_group_id == db.nextGroupId) = [] := by
      rw [List.filter_eq_nil_iff]
      intro res hmem
      have := hfr.2.2 res hmem
      simp
      omega
    rw [hnil]
    simp [mkResult]

/-- Closed witness for C2 on a concrete clean state: at most one result
survives, the immediate re-store of the same pair with different values is
a no-op, and exactly one result row exists for the created group. -/
theorem c2_witness :
    atMostOneResult (storeRuns dbTwoEntries [[recPair12]]) ∧
    storeEntry (storeEntry dbTwoEntries [recPair12]).1 [recPair12x] =
      ((storeEntry dbTwoEntries [recPair12]).1, 0) ∧
    ((storeEntry dbTwoEntries [recPair12]).1.results.filter
      fun res => res.alignment_group_id == dbTwoEntries.nextGroupId).length = 1 := by
  have hfr : freshDB dbTwoEntries := by
    refine ⟨fun row h => ?_, fun g h => ?_, fun res h => ?_⟩ <;>
      simp [dbTwoEntries] at h
  have hamo : atMostOneResult dbTwoEntries := by
    intro g
    simp [dbTwoEntries]
  exact ⟨(c2_at_most_one_result_and_rerun_noop dbTwoEntries [[recPair12]]
      recPair12 recPair12x).1 hamo,
    (c2_at_most_one_result_and_rerun_noop dbTwoEntries [[recPair12]]
      recPair12 recPair12x).2.1 hfr (by decide) (by decide),
    (c2_at_most_one_result_and_rerun_noop dbTwoEntries [[recPair12]]
      recPair12 recPair12x).2.2 hfr (by decide) (by decide)⟩

/-- C3: starting from a well-formed state with at most one AlignmentGroup
per exact membership pair (fresh ids, no duplicated membership edge), any
number of `store_entry` invocations on records with two distinct entry ids
preserves that uniqueness; and `store_entry` creates a new group only when
the lookup finds none (a successful lookup leaves the group table
unchanged). -/
theorem c3_no_duplicate_groups (db : DB) (batches : List (List StoreRec)) :
    (freshDB db → noDupEdges db → pairUnique db →
      (∀ b ∈ batches, ∀ rec ∈ b,
        rec.subcluster_entry_1_id ≠ rec.subcluster_entry_2_id) →
      pairUnique (storeRuns db batches)) ∧
    (∀ (d : DB) (n : Nat) (rec : StoreRec) (g : Nat),
      findGroup d rec.subcluster_entry_1_id rec.subcluster_entry_2_id = some g →
      (storeStep (d, n) rec).1.groups = d.groups) := by
  constructor
  · intro h1 h2 h3 h4
    exact (storeInv_storeRuns db batches h1 h2 h3 h4).2.2
  · intro d n rec g hfind
    show (storeStepDB d rec).1.groups = d.groups
    exact storeStepDB_groups_of_found d rec g hfind

/-- Closed witness for C3: pair uniqueness after a concrete run, and the
lookup-before-create discipline at the concrete superset state. -/
theorem c3_witness :
    pairUnique (storeRuns dbTwoEntries [[recPair12]]) ∧
    (storeStep (dbSuperset, 0) recPair12).1.groups = dbSuperset.groups := by
  have hfr : freshDB dbTwoEntries := by
    refine ⟨fun row h => ?_, fun g h => ?_, fun res h => ?_⟩ <;>
      simp [dbTwoEntries] at h
  have hnd : noDupEdges dbTwoEntries := by
    intro g
    simp [dbTwoEntries, rowEntries]
  have hpu : pairUnique dbTwoEntries := by
    intro g hg
    simp [dbTwoEntries] at hg
  exact ⟨(c3_no_duplicate_groups dbTwoEntries [[recPair12]]).1 hfr hnd hpu (by decide),
    (c3_no_duplicate_groups dbTwoEntries [[recPair12]]).2 dbSuperset 0 recPair12 0
      (by decide)⟩

/-- C4: the Pending-Work Resolver reports a cluster exactly when it has at
least two representative entries and at least one of its unordered entry
pairs is missing from the completed-pairs set (a cluster with fewer than
two entries is never reported); and the enqueuer never publishes a task
whose fetched entry list has fewer than two entries. -/
theorem c4_pending_iff_and_skip_below_threshold (repRows : List RepRow)
    (resRows : List GroupEntryRow) (c : Nat) (fetchRows : List FetchRow) :
    (c ∈ getClustersWithPendingAlignments repRows resRows ↔
      2 ≤ (entriesOfCluster repRows c).length ∧
        ∃ p ∈ pairsOf (entriesOfCluster repRows c), p ∉ completedPairs resRows) ∧
    (∀ td ∈ enqueue fetchRows, 2 ≤ td.subclusters.length) := by
  exact ⟨mem_getClustersWithPendingAlignments repRows resRows c,
    fun td htd => ((mem_enqueue fetchRows td).mp htd).2⟩

/-- Closed witness for C4: with no completed pairs, the two-entry cluster 7
is pending, and the published task for cluster 7 has two entries while the
one-entry cluster 8 yields no task. -/
theorem c4_witness :
    7 ∈ getClustersWithPendingAlignments repRowsW [] ∧
    2 ≤ (TaskDescriptor.mk 7 [⟨10, "a", 100⟩, ⟨11, "b", 101⟩]).subclusters.length := by
  exact ⟨(c4_pending_iff_and_skip_below_threshold repRowsW [] 7 fetchRowsW).1.mpr
      (by decide),
    (c4_pending_iff_and_skip_below_threshold repRowsW [] 7 fetchRowsW).2
      ⟨7, [⟨10, "a", 100⟩, ⟨11, "b", 101⟩]⟩ (by decide)⟩

/-- C5: the Result Merger groups tuples by the unordered pair of entry ids
(swapped ids give the same key, so they land in the same record), emits
exactly one record per pair with at least one result and none otherwise
(distinct keys, key present iff some tuple carries it), and each metric
field of a record is present exactly when its owning algorithm type
(1: ce_rms; 2: tm_*; 3: fc_*) reported for that pair, with every present
value (metrics and ids) originating from a tuple of that same pair — no
cross-pair and no cross-algorithm contamination. -/
theorem c5_result_merger_spec (rs : List RawResult) :
    ((mergeResults rs).map Prod.fst).Nodup ∧
    (∀ k : Finset Nat, (lookupA k (mergeResults rs)).isSome ↔ ∃ r ∈ rs, pairKey r = k) ∧
    (∀ r r' : RawResult, r.subcluster_entry_1_id = r'.subcluster_entry_2_id →
      r.subcluster_entry_2_id = r'.subcluster_entry_1_id → pairKey r = pairKey r') ∧
    (∀ (k : Finset Nat) (m : Merged), lookupA k (mergeResults rs) = some m →
      ((m.ce_rms.isSome ↔ ∃ r ∈ rs, pairKey r = k ∧ r.alignment_type_id = 1) ∧
        ∀ w, m.ce_rms = some w →
          ∃ r ∈ rs, pairKey r = k ∧ r.alignment_type_id = 1 ∧ r.ce_rms = w) ∧
      ((m.tm_rms.isSome ↔ ∃ r ∈ rs, pairKey r = k ∧ r.alignment_type_id = 2) ∧
        ∀ w, m.tm_rms = some w →
          ∃ r ∈ rs, pairKey r = k ∧ r.alignment_type_id = 2 ∧ r.tm_rms = w) ∧
      ((m.tm_seq_id.isSome ↔ ∃ r ∈ rs, pairKey r = k ∧ r.alignment_type_id = 2) ∧
        ∀ w, m.tm_seq_id = some w →
          ∃ r ∈ rs, pairKey r = k ∧ r.alignment_type_id = 2 ∧ r.tm_seq_id = w) ∧
      ((m.tm_score_chain_1.isSome ↔
          ∃ r ∈ rs, pairKey r = k ∧ r.alignment_type_id = 2) ∧
        ∀ w, m.tm_score_chain_1 = some w →
          ∃ r ∈ rs, pairKey r = k ∧ r.alignment_type_id = 2 ∧ r.tm_score_chain_1 = w) ∧
      ((m.tm_score_chain_2.isSome ↔
          ∃ r ∈ rs, pairKey r = k ∧ r.alignment_type_id = 2) ∧
        ∀ w, m.tm_score_chain_2 = some w →
          ∃ r ∈ rs, pairKey r = k ∧ r.alignment_type_id = 2 ∧ r.tm_score_chain_2 = w) ∧
      ((m.fc_rms.isSome ↔ ∃ r ∈ rs, pairKey r = k ∧ r.alignment_type_id = 3) ∧
        ∀ w, m.fc_rms = some w →
          ∃ r ∈ rs, pairKey r = k ∧ r.alignment_type_id = 3 ∧ r.fc_rms = w) ∧
      ((m.fc_identity.isSome ↔ ∃ r ∈ rs, pairKey r = k ∧ r.alignment_type_id = 3) ∧
        ∀ w, m.fc_identity = some w →
          ∃ r ∈ rs, pairKey r = k ∧ r.alignment_type_id = 3 ∧ r.fc_identity = w) ∧
      ((m.fc_similarity.isSome ↔ ∃ r ∈ rs, pairKey r = k ∧ r.alignment_type_id = 3) ∧
        ∀ w, m.fc_similarity = some w →
          ∃ r ∈ rs, pairKey r = k ∧ r.alignment_type_id = 3 ∧ r.fc_similarity = w) ∧
      ((m.fc_score.isSome ↔ ∃ r ∈ rs, pairKey r = k ∧ r.alignment_type_id = 3) ∧
        ∀ w, m.fc_score = some w →
          ∃ r ∈ rs, pairKey r = k ∧ r.alignment_type_id = 3 ∧ r.fc_score = w) ∧
      ((m.fc_align_len.isSome ↔ ∃ r ∈ rs, pairKey r = k ∧ r.alignment_type_id = 3) ∧
        ∀ w, m.fc_align_len = some w →
          ∃ r ∈ rs, pairKey r = k ∧ r.alignment_type_id = 3 ∧ r.fc_align_len = w) ∧
      (m.subcluster_entry_1_id.isSome = true ∧
        ∀ w, m.subcluster_entry_1_id = some w →
          ∃ r ∈ rs, pairKey r = k ∧ r.subcluster_entry_1_id = w) ∧
      (m.subcluster_entry_2_id.isSome = true ∧
        ∀ w, m.subcluster_entry_2_id = some w →
          ∃ r ∈ rs, pairKey r = k ∧ r.subcluster_entry_2_id = w) ∧
      (m.cluster_id.isSome = true ∧
        ∀ w, m.cluster_id = some w →
          ∃ r ∈ rs, pairKey r = k ∧ r.cluster_id = w)) := by
  refine ⟨(mergeResults_keys rs).1, (mergeResults_keys rs).2, ?_, ?_⟩
  · intro r r' h1 h2
    rw [pairKey, pairKey, h1, h2]
    exact Finset.pair_comm _ _
  · intro k m hm
    exact ⟨merged_metric_spec Merged.ce_rms RawResult.ce_rms 1
        mergeStep_ce_rms rfl rs k m hm,
      merged_metric_spec Merged.tm_rms RawResult.tm_rms 2
        mergeStep_tm_rms rfl rs k m hm,
      merged_metric_spec Merged.tm_seq_id RawResult.tm_seq_id 2
        mergeStep_tm_seq_id rfl rs k m hm,
      merged_metric_spec Merged.tm_score_chain_1 RawResult.tm_score_chain_1 2
        mergeStep_tm_score_chain_1 rfl rs k m hm,
      merged_metric_spec Merged.tm_score_chain_2 RawResult.tm_score_chain_2 2
        mergeStep_tm_score_chain_2 rfl rs k m hm,
      merged_metric_spec Merged.fc_rms RawResult.fc_rms 3
        mergeStep_fc_rms rfl rs k m hm,
      merged_metric_spec Merged.fc_identity RawResult.fc_identity 3
        mergeStep_fc_identity rfl rs k m hm,
      merged_metric_spec Merged.fc_similarity RawResult.fc_similarity 3
        mergeStep_fc_similarity rfl rs k m hm,
      merged_metric_spec Merged.fc_score RawResult.fc_score 3
        mergeStep_fc_score rfl rs k m hm,
      merged_metric_spec Merged.fc_align_len RawResult.fc_align_len 3
        mergeStep_fc_align_len rfl rs k m hm,
      merged_idfield_spec Merged.subcluster_entry_1_id RawResult.subcluster_entry_1_id
        mergeStep_entry_1 rfl rs k m hm,
      merged_idfield_spec Merged.subcluster_entry_2_id RawResult.subcluster_entry_2_id
        mergeStep_entry_2 rfl rs k m hm,
      merged_idfield_spec Merged.cluster_id RawResult.cluster_id
        mergeStep_cluster_id rfl rs k m hm⟩

/-- Closed witness for C5: on the concrete one-tuple input, the merged
record at key `{1, 2}` exists and its present `ce_rms` field certifies a
type-1 tuple with that key. -/
theorem c5_witness : ∃ r ∈ rsW, pairKey r = ({1, 2} : Finset Nat) ∧
    r.alignment_type_id = 1 := by
  exact ((c5_result_merger_spec rsW).2.2.2 {1, 2} mW (by decide)).1.1.mp (by decide)

/-- C6: when the Pending-Work Resolver builds the completed-pairs set, a
group whose result-bearing entry set does not have exactly two elements
contributes nothing: dropping all of its rows leaves membership in the
completed-pairs set unchanged, so such a group never marks any pair
complete. -/
theorem c6_malformed_group_contributes_no_pair (rows : List GroupEntryRow) (g : Nat)
    (h : (entrySetRows rows g).card ≠ 2) (p : Finset Nat) :
    p ∈ completedPairs rows ↔
      p ∈ completedPairs (rows.filter fun row => !(row.alignment_group_id == g)) := by
  rw [mem_completedPairs, mem_completedPairs]
  constructor
  · rintro ⟨g', ⟨row, hrow, hgid⟩, hset, hcard⟩
    have hne : g' ≠ g := by
      rintro rfl
      rw [hset] at h
      exact h hcard
    refine ⟨g', ⟨row, ?_, hgid⟩, ?_, hcard⟩
    · exact List.mem_filter.mpr ⟨hrow, by simp [hgid, hne]⟩
    · rw [← hset, entrySetRows, entrySetRows, rowEntries_erase_group rows g g' hne]
  · rintro ⟨g', ⟨row, hrow, hgid⟩, hset, hcard⟩
    have hrow' := List.mem_filter.mp hrow
    have hne : g' ≠ g := by
      rintro rfl
      have hfail := hrow'.2
      simp [hgid] at hfail
    refine ⟨g', ⟨row, hrow'.1, hgid⟩, ?_, hcard⟩
    rw [← hset, entrySetRows, entrySetRows, rowEntries_erase_group rows g g' hne]

/-- Closed witness for C6: group 0 of the concrete rows has three
result-bearing entries, and the pair `{4, 5}` is complete with or without
group 0's rows. -/
theorem c6_witness :
    (entrySetRows resRows6 0).card ≠ 2 ∧
    (({4, 5} : Finset Nat) ∈ completedPairs resRows6 ↔
      ({4, 5} : Finset Nat) ∈ completedPairs
        (resRows6.filter fun row => !(row.alignment_group_id == 0))) := by
  exact ⟨by decide,
    c6_malformed_group_contributes_no_pair resRows6 0 (by decide) {4, 5}⟩

/-- C7: if any session operation of a `store_entry` batch raises, the whole
transaction is rolled back — the committed state is exactly the pre-call
state, nothing counts as inserted — and exactly one error is reported for
the whole batch (cluster granularity), not one per record; when nothing
raises, no error is reported and the committed state and inserted count are
those of the uninstrumented loop. -/
theorem c7_store_failure_rolls_back_batch (db : DB) (recs : List StoreRec)
    (failAt : Option Nat) :
    ((storeEntryF db recs failAt).failed = true →
      (storeEntryF db recs failAt).db = db ∧
      (storeEntryF db recs failAt).failureReports = 1 ∧
      (storeEntryF db recs failAt).inserted = 0) ∧
    ((storeEntryF db recs failAt).failed = false →
      (storeEntryF db recs failAt).failureReports = 0 ∧
      (storeEntryF db recs failAt).db = (storeEntry db recs).1 ∧
      (storeEntryF db recs failAt).inserted = (storeEntry db recs).2) := by
  rw [storeEntryF]
  cases hloop : storeLoopF failAt recs db 0 0 with
  | error e =>
      dsimp only
      exact ⟨fun _ => ⟨rfl, rfl, rfl⟩, fun h => by cases h⟩
  | ok out =>
      obtain ⟨pending, ins, c⟩ := out
      dsimp only
      cases htick : opTick failAt c with
      | ok c' =>
          dsimp only
          have hag := storeLoopF_ok_agree failAt recs db 0 0 (pending, ins, c) hloop
          constructor
          · intro h
            cases h
          · intro _
            refine ⟨rfl, ?_, ?_⟩
            · rw [storeEntry_fst]
              exact hag.1
            · exact hag.2
      | error e =>
          dsimp only
          exact ⟨fun _ => ⟨rfl, rfl, rfl⟩, fun h => by cases h⟩

/-- Closed witness for C7: with the very first session operation scheduled
to raise, the call fails, the state is untouched and one batch-level error
is reported. -/
theorem c7_witness :
    (storeEntryF dbTwoEntries [recPair12] (some 0)).failed = true ∧
    (storeEntryF dbTwoEntries [recPair12] (some 0)).db = dbTwoEntries ∧
    (storeEntryF dbTwoEntries [recPair12] (some 0)).failureReports = 1 := by
  have h := (c7_store_failure_rolls_back_batch dbTwoEntries [recPair12] (some 0)).1
    (by decide)
  exact ⟨by decide, h.1, h.2.1⟩

/-- C8: a falsy "no result" outcome from one (pair, algorithm-type)
invocation is never fatal: with no exception raised anywhere, `process`
runs normally, every `C(n,2) x types` combination is attempted, the batch's
merged records are handed to the store exactly once, and the merged record
of the affected pair still carries the successful algorithm's full metric
subset while the failed algorithm's subset is simply absent. -/
theorem c8_partial_failure_isolation
    (oracle : PairTask → AlignOutcome) (types : List Nat) (failAt : Option Nat)
    (db : DB) (cid : Nat) (subs : List SubEntryDict)
    (pr : SubEntryDict × SubEntryDict) (t0 t1 : Nat) (r1 : RawResult)
    (hcid : cid ≠ 0)
    (hnd : (subs.map fun s => s.subcluster_entry_id).Nodup)
    (hnr : ∀ q ∈ pairsL subs, ∀ t ∈ types,
      oracle (mkTask cid t q.1 q.2) ≠ AlignOutcome.raiseExn)
    (hecho : ∀ q ∈ pairsL subs, ∀ t ∈ types, ∀ r,
      oracle (mkTask cid t q.1 q.2) = AlignOutcome.ok r →
      r.subcluster_entry_1_id = q.1.subcluster_entry_id ∧
      r.subcluster_entry_2_id = q.2.subcluster_entry_id)
    (hpr : pr ∈ pairsL subs) (ht0 : t0 ∈ types) (ht1 : t1 ∈ types)
    (ht0id : t0 = 1 ∨ t0 = 2 ∨ t0 = 3) (ht1id : t1 = 1 ∨ t1 = 2 ∨ t1 = 3)
    (hno : oracle (mkTask cid t0 pr.1 pr.2) = AlignOutcome.noResult)
    (hok : oracle (mkTask cid t1 pr.1 pr.2) = AlignOutcome.ok r1) :
    (process oracle types failAt db ⟨some cid, some subs⟩).failed = false ∧
    (process oracle types failAt db ⟨some cid, some subs⟩).alignCalls =
      (pairsL subs).length * types.length ∧
    (process oracle types failAt db ⟨some cid, some subs⟩).storeCalls = 1 ∧
    ∃ m ∈ (process oracle types failAt db ⟨some cid, some subs⟩).merged,
      (∃ a b, m.subcluster_entry_1_id = some a ∧ m.subcluster_entry_2_id = some b ∧
        ({a, b} : Finset Nat) =
          {pr.1.subcluster_entry_id, pr.2.subcluster_entry_id}) ∧
      typeFieldsSet t1 m = true ∧ typeFieldsClear t0 m = true := by
  obtain ⟨rs, hcol, hmem⟩ := collectGo_ok oracle cid types (pairsL subs) hnr
  set k0 : Finset Nat := {pr.1.subcluster_entry_id, pr.2.subcluster_entry_id} with hk0
  have hr1mem : ({ r1 with alignment_type_id := t1 }) ∈ rs :=
    (hmem _).mpr ⟨pr, hpr, t1, ht1, r1, hok, rfl⟩
  obtain ⟨he1, he2⟩ := hecho pr hpr t1 ht1 r1 hok
  have hr1key : pairKey { r1 with alignment_type_id := t1 } = k0 := by
    rw [pairKey_retag, pairKey, he1, he2]
  have hsrc : ∀ r' ∈ rs, pairKey r' = k0 →
      r'.subcluster_entry_1_id = pr.1.subcluster_entry_id ∧
      r'.subcluster_entry_2_id = pr.2.subcluster_entry_id := by
    intro r' hr' hkey
    rcases (hmem r').mp hr' with ⟨q, hq, t, ht, r0, hor, rfl⟩
    obtain ⟨f1, f2⟩ := hecho q hq t ht r0 hor
    rw [pairKey_retag, pairKey] at hkey
    have hkq : ({q.1.subcluster_entry_id, q.2.subcluster_entry_id} : Finset Nat) = k0 := by
      rw [← f1, ← f2]
      exact hkey
    have hqq : q = pr :=
      pairsL_key_inj (fun s => s.subcluster_entry_id) hnd hq hpr hkq
    subst hqq
    exact ⟨f1, f2⟩
  have hnot0 : ¬ ∃ r' ∈ rs, pairKey r' = k0 ∧ r'.alignment_type_id = t0 := by
    rintro ⟨r', hr', hkey, htype⟩
    rcases (hmem r').mp hr' with ⟨q, hq, t, ht, r0, hor, rfl⟩
    have htt : t = t0 := htype
    subst htt
    obtain ⟨f1, f2⟩ := hecho q hq t ht r0 hor
    rw [pairKey_retag, pairKey] at hkey
    have hkq : ({q.1.subcluster_entry_id, q.2.subcluster_entry_id} : Finset Nat) = k0 := by
      rw [← f1, ← f2]
      exact hkey
    have hqq : q = pr :=
      pairsL_key_inj (fun s => s.subcluster_entry_id) hnd hq hpr hkq
    subst hqq
    rw [hno] at hor
    cases hor
  have hlookSome : (lookupA k0 (mergeResults rs)).isSome :=
    ((mergeResults_keys rs).2 k0).mpr ⟨_, hr1mem, hr1key⟩
  obtain ⟨m, hm⟩ := Option.isSome_iff_exists.mp hlookSome
  have hex1 : ∃ r' ∈ rs, pairKey r' = k0 ∧ r'.alignment_type_id = t1 :=
    ⟨_, hr1mem, hr1key, rfl⟩
  have hset1 : typeFieldsSet t1 m = true := by
    rcases ht1id with h | h | h <;> subst h
    · have h1 : m.ce_rms.isSome = true := (merged_metric_spec Merged.ce_rms
        RawResult.ce_rms 1 mergeStep_ce_rms rfl rs k0 m hm).1.mpr hex1
      simp [typeFieldsSet, h1]
    · have h1 : m.tm_rms.isSome = true := (merged_metric_spec Merged.tm_rms
        RawResult.tm_rms 2 mergeStep_tm_rms rfl rs k0 m hm).1.mpr hex1
      have h2 : m.tm_seq_id.isSome = true := (merged_metric_spec Merged.tm_seq_id
        RawResult.tm_seq_id 2 mergeStep_tm_seq_id rfl rs k0 m hm).1.mpr hex1
      have h3 : m.tm_score_chain_1.isSome = true :=
        (merged_metric_spec Merged.tm_score_chain_1 RawResult.tm_score_chain_1 2
          mergeStep_tm_score_chain_1 rfl rs k0 m hm).1.mpr hex1
      have h4 : m.tm_score_chain_2.isSome = true :=
        (merged_metric_spec Merged.tm_score_chain_2 RawResult.tm_score_chain_2 2
          mergeStep_tm_score_chain_2 rfl rs k0 m hm).1.mpr hex1
      simp [typeFieldsSet, h1, h2, h3, h4]
    · have h1 : m.fc_rms.isSome = true := (merged_metric_spec Merged.fc_rms
        RawResult.fc_rms 3 mergeStep_fc_rms rfl rs k0 m hm).1.mpr hex1
      have h2 : m.fc_identity.isSome = true := (merged_metric_spec Merged.fc_identity
        RawResult.fc_identity 3 mergeStep_fc_identity rfl rs k0 m hm).1.mpr hex1
      have h3 : m.fc_similarity.isSome = true :=
        (merged_metric_spec Merged.fc_similarity RawResult.fc_similarity 3
          mergeStep_fc_similarity rfl rs k0 m hm).1.mpr hex1
      have h4 : m.fc_score.isSome = true := (merged_metric_spec Merged.fc_score
        RawResult.fc_score 3 mergeStep_fc_score rfl rs k0 m hm).1.mpr hex1
      have h5 : m.fc_align_len.isSome = true :=
        (merged_metric_spec Merged.fc_align_len RawResult.fc_align_len 3
          mergeStep_fc_align_len rfl rs k0 m hm).1.mpr hex1
      simp [typeFieldsSet, h1, h2, h3, h4, h5]
  have hclear0 : typeFieldsClear t0 m = true := by
    rcases ht0id with h | h | h <;> subst h
    · have h1 : m.ce_rms = none := Option.not_isSome_iff_eq_none.mp
        (fun hsome => hnot0 ((merged_metric_spec Merged.ce_rms RawResult.ce_rms 1
          mergeStep_ce_rms rfl rs k0 m hm).1.mp hsome))
      simp [typeFieldsClear, h1]
    · have h1 : m.tm_rms = none := Option.not_isSome_iff_eq_none.mp
        (fun hsome => hnot0 ((merged_metric_spec Merged.tm_rms RawResult.tm_rms 2
          mergeStep_tm_rms rfl rs k0 m hm).1.mp hsome))
      have h2 : m.tm_seq_id = none := Option.not_isSome_iff_eq_none.mp
        (fun hsome => hnot0 ((merged_metric_spec Merged.tm_seq_id RawResult.tm_seq_id 2
          mergeStep_tm_seq_id rfl rs k0 m hm).1.mp hsome))
      have h3 : m.tm_score_chain_1 = none := Option.not_isSome_iff_eq_none.mp
        (fun hsome => hnot0 ((merged_metric_spec Merged.tm_score_chain_1
          RawResult.tm_score_chain_1 2
          mergeStep_tm_score_chain_1 rfl rs k0 m hm).1.mp hsome))
      have h4 : m.tm_score_chain_2 = none := Option.not_isSome_iff_eq_none.mp
        (fun hsome => hnot0 ((merged_metric_spec Merged.tm_score_chain_2
          RawResult.tm_score_chain_2 2
          mergeStep_tm_score_chain_2 rfl rs k0 m hm).1.mp hsome))
      simp [typeFieldsClear, h1, h2, h3, h4]
    · have h1 : m.fc_rms = none := Option.not_isSome_iff_eq_none.mp
        (fun hsome => hnot0 ((merged_metric_spec Merged.fc_rms RawResult.fc_rms 3
          mergeStep_fc_rms rfl rs k0 m hm).1.mp hsome))
      have h2 : m.fc_identity = none := Option.not_isSome_iff_eq_none.mp
        (fun hsome => hnot0 ((merged_metric_spec Merged.fc_identity
          RawResult.fc_identity 3
          mergeStep_fc_identity rfl rs k0 m hm).1.mp hsome))
      have h3 : m.fc_similarity = none := Option.not_isSome_iff_eq_none.mp
        (fun hsome => hnot0 ((merged_metric_spec Merged.fc_similarity
          RawResult.fc_similarity 3
          mergeStep_fc_similarity rfl rs k0 m hm).1.mp hsome))
      have h4 : m.fc_score = none := Option.not_isSome_iff_eq_none.mp
        (fun hsome => hnot0 ((merged_metric_spec Merged.fc_score RawResult.fc_score 3
          mergeStep_fc_score rfl rs k0 m hm).1.mp hsome))
      have h5 : m.fc_align_len = none := Option.not_isSome_iff_eq_none.mp
        (fun hsome => hnot0 ((merged_metric_spec Merged.fc_align_len
          RawResult.fc_align_len 3
          mergeStep_fc_align_len rfl rs k0 m hm).1.mp hsome))
      simp [typeFieldsClear, h1, h2, h3, h4, h5]
  have hid1 := merged_idfield_spec Merged.subcluster_entry_1_id
    RawResult.subcluster_entry_1_id mergeStep_entry_1 rfl rs k0 m hm
  have hid2 := merged_idfield_spec Merged.subcluster_entry_2_id
    RawResult.subcluster_entry_2_id mergeStep_entry_2 rfl rs k0 m hm
  obtain ⟨a, ha⟩ := Option.isSome_iff_exists.mp hid1.1
  obtain ⟨b, hb⟩ := Option.isSome_iff_exists.mp hid2.1
  have haval : a = pr.1.subcluster_entry_id := by
    rcases hid1.2 a ha with ⟨r', hr', hkey, hval⟩
    rw [← hval]
    exact (hsrc r' hr' hkey).1
  have hbval : b = pr.2.subcluster_entry_id := by
    rcases hid2.2 b hb with ⟨r', hr', hkey, hval⟩
    rw [← hval]
    exact (hsrc r' hr' hkey).2
  have hmmem : (k0, m) ∈ mergeResults rs :=
    (mem_foldUpd_iff pairKey emptyMerged mergeStep rs k0 m).mpr hm
  have hmlist : m ∈ (mergeResults rs).map Prod.snd :=
    List.mem_map_of_mem Prod.snd hmmem
  have hsubsne : subs ≠ [] := by
    rintro rfl
    cases hpr
  have hcond : ¬ (cid = 0 ∨ subs = []) := by
    rintro (h | h)
    · exact hcid h
    · exact hsubsne h
  have hnotempty : ¬ (((mergeResults rs).map Prod.snd).isEmpty = true) := by
    cases hml : (mergeResults rs).map Prod.snd with
    | nil => rw [hml] at hmlist; cases hmlist
    | cons x t => simp
  have hbody : processBody oracle types failAt db ⟨some cid, some subs⟩ =
      .ok ⟨(storeEntryF db (((mergeResults rs).map Prod.snd).filterMap toStoreRec)
          failAt).db,
        (pairsL subs).length * types.length, 1, (mergeResults rs).map Prod.snd⟩ := by
    simp only [processBody]
    rw [if_neg hcond, hcol]
    dsimp only
    rw [if_neg hnotempty]
  have hproc : process oracle types failAt db ⟨some cid, some subs⟩ =
      ⟨(storeEntryF db (((mergeResults rs).map Prod.snd).filterMap toStoreRec)
          failAt).db,
        (pairsL subs).length * types.length, 1, (mergeResults rs).map Prod.snd,
        false⟩ := by
    rw [process, hbody]
  rw [hproc]
  exact ⟨rfl, rfl, rfl, m, hmlist,
    ⟨a, b, ha, hb, by rw [haval, hbval]⟩, hset1, hclear0⟩

/-- Closed witness for C8: with algorithm 1 reporting "no result" and
algorithm 2 succeeding on the single pair, the unit completes normally and
stores once. -/
theorem c8_witness :
    (process oracleW [1, 2] none dbTwoEntries ⟨some 7, some subsW⟩).failed = false ∧
    (process oracleW [1, 2] none dbTwoEntries ⟨some 7, some subsW⟩).storeCalls = 1 := by
  have hecho : ∀ q ∈ pairsL subsW, ∀ t ∈ [1, 2], ∀ r,
      oracleW (mkTask 7 t q.1 q.2) = AlignOutcome.ok r →
      r.subcluster_entry_1_id = q.1.subcluster_entry_id ∧
      r.subcluster_entry_2_id = q.2.subcluster_entry_id := by
    intro q hq t ht r hr
    have hps : pairsL subsW = [(⟨1, "p1", 100⟩, ⟨2, "p2", 101⟩)] := rfl
    rw [hps] at hq
    have hq' : q = (⟨1, "p1", 100⟩, ⟨2, "p2", 101⟩) := by simpa using hq
    subst hq'
    have ht' : t = 1 ∨ t = 2 := by simpa using ht
    rcases ht' with rfl | rfl
    · rw [show oracleW (mkTask 7 1 ⟨1, "p1", 100⟩ ⟨2, "p2", 101⟩) =
        AlignOutcome.noResult from rfl] at hr
      cases hr
    · rw [show oracleW (mkTask 7 2 ⟨1, "p1", 100⟩ ⟨2, "p2", 101⟩) =
        AlignOutcome.ok r1W from rfl] at hr
      injection hr with hr
      subst hr
      exact ⟨rfl, rfl⟩
  have h := c8_partial_failure_isolation oracleW [1, 2] none dbTwoEntries 7 subsW
    (⟨1, "p1", 100⟩, ⟨2, "p2", 101⟩) 1 2 r1W (by decide) (by decide) (by decide)
    hecho (by decide) (by decide) (by decide) (by decide) (by decide)
    (by decide) (by decide)
  exact ⟨h.1, h.2.2.1⟩

/-- C9: a task descriptor whose cluster id or entry list is missing fails
the whole unit immediately: the error is reported, no alignment is
attempted, nothing is merged and nothing is stored — the persisted state is
untouched. -/
theorem c9_missing_input_is_immediate_failure
    (oracle : PairTask → AlignOutcome) (types : List Nat) (failAt : Option Nat)
    (db : DB) (data : TaskData)
    (h : data.cluster_id = none ∨ data.subclusters = none) :
    process oracle types failAt db data = ⟨db, 0, 0, [], true⟩ := by
  obtain ⟨dc, ds⟩ := data
  cases dc with
  | none =>
      cases ds with
      | none => rfl
      | some subs => rfl
  | some cid =>
      cases ds with
      | none => rfl
      | some subs => rcases h with h | h <;> simp at h

/-- Closed witness for C9: a task without a cluster id is reported as a
failure with zero invocations, zero merged records and zero store calls. -/
theorem c9_witness :
    process oracleW [1, 2] none dbTwoEntries ⟨none, some subsW⟩ =
      ⟨dbTwoEntries, 0, 0, [], true⟩ :=
  c9_missing_input_is_immediate_failure oracleW [1, 2] none dbTwoEntries
    ⟨none, some subsW⟩ (Or.inl rfl)

/-- C10: `process` returns normally on every input: whatever its body does
— raise the missing-input `ValueError`, see an algorithm raise, or run the
store (which catches its own exceptions and returns an outcome value) — the
result is a normal `ProcResult`, with every body exception converted into a
logged failure and no state change of its own. -/
theorem c10_process_always_returns_normally
    (oracle : PairTask → AlignOutcome) (types : List Nat) (failAt : Option Nat)
    (db : DB) (data : TaskData) :
    (∃ n, processBody oracle types failAt db data = .error n ∧
      process oracle types failAt db data = ⟨db, n, 0, [], true⟩) ∨
    (∃ k, processBody oracle types failAt db data = .ok k ∧
      process oracle types failAt db data =
        ⟨k.db, k.alignCalls, k.storeCalls, k.merged, false⟩) := by
  cases hb : processBody oracle types failAt db data with
  | error n =>
      left
      exact ⟨n, rfl, by rw [process, hb]⟩
  | ok k =>
      right
      exact ⟨k, rfl, by rw [process, hb]⟩

end StructuralAlignment
